import Mathlib

/-!
# hidefile: a shallow embedding of `src/hidefile.c`

The kernel module hides a file by (1) swapping the `i_fop` / `i_op` operation
tables of the target inode for stub tables, (2) swapping the `i_fop` of the
parent directory for a table whose `readdir` filters directory entries by inode
number, and (3) remembering every overwritten pointer in global arrays so that
`backup_functions` can write them back.

Modelling conventions.
* Inodes and dentries are addressed by natural numbers; the inode heap is a
  total function `Nat → inode`.  Dentries handed out by `path_lookup` and
  `d_lookup` are positive (they have an inode).
* The kernel services the module calls (`path_lookup`, `d_lookup`, the
  operation tables of the real file systems, their `readdir`) are the fields of
  a `Kernel` value that every entry point takes as a parameter.
* `kmalloc` / `krealloc` with `GFP_KERNEL` are modelled as succeeding.  A block
  is a list of cells; a cell is `none` until it has been written.  Reading an
  unwritten cell, indexing outside a block, using a NULL or freed block and
  calling through a NULL function pointer are the fault `Fault.oops`.
* Calls through function pointers are bounded by a fuel argument (the depth of
  nested calls); running out of fuel is the fault `Fault.diverges`.
* Word sizes are those of an LP64 kernel: `unsigned long`, `size_t` are 64 bits,
  `unsigned int` is 32 bits.  `g_inode_count` (an `int` that only ever grows
  from 0) is a natural number; the model is exact while it is below `2^31`.
* `printk` is not modelled.
-/

namespace Hidefile

/-! ## Faults and results -/

/-- Ways in which a run of the module's code fails to produce a result. -/
inductive Fault
  | oops
  | diverges
  deriving DecidableEq, Repr

/-- Result of running a piece of the module. -/
abbrev Outcome (α : Type) := Except Fault α

deriving instance DecidableEq for Except

/-! ## Operation tables -/

/-- Functions of the module (and of the kernel, by address) that can be stored
in an operation-table slot or passed as a `readdir` implementation. -/
inductive Fn
  | new_mmap
  | new_read
  | new_write
  | new_release
  | new_flush
  | new_readdir
  | new_open
  | parent_readdir
  | new_rmdir
  | new_getattr
  | kernel (addr : Nat)
  deriving DecidableEq, Repr

/-- Slots of `struct file_operations` (`linux/fs.h`): the ones the module
mentions and the other common ones of a directory or regular file. -/
inductive FileSlot
  | llseek
  | read
  | write
  | readdir
  | ioctl
  | mmap
  | open
  | flush
  | release
  | fsync
  deriving DecidableEq, Repr

/-- Slots of `struct inode_operations` (`linux/fs.h`). -/
inductive InodeSlot
  | create
  | lookup
  | link
  | unlink
  | symlink
  | mkdir
  | rmdir
  | mknod
  | rename
  | setattr
  | getattr
  deriving DecidableEq, Repr

/-- A `struct file_operations`: each slot holds a function pointer or NULL. -/
abbrev file_operations := FileSlot → Option Fn

/-- A `struct inode_operations`: each slot holds a function pointer or NULL. -/
abbrev inode_operations := InodeSlot → Option Fn

/-- Value of a `const struct file_operations *`: the address of one of the
module's static tables or of a table owned by the kernel. -/
inductive FopPtr
  | new_parent_fop
  | new_fop
  | kernel (addr : Nat)
  deriving DecidableEq, Repr

/-- Value of a `const struct inode_operations *`. -/
inductive IopPtr
  | new_iop
  | kernel (addr : Nat)
  deriving DecidableEq, Repr

/-- The fields of `struct inode` the module touches. -/
structure inode where
  i_ino : Nat
  i_fop : FopPtr
  i_op : IopPtr
  deriving DecidableEq, Repr

/-- The stub handlers: each one only logs and returns `-2`. -/
def new_mmap (_file _area : Nat) : Int := -2

/-- Stub `read`. -/
def new_read (_file1 _u _t _ll : Nat) : Int := -2

/-- Stub `write`. -/
def new_write (_file1 _u _t _ll : Nat) : Int := -2

/-- Stub `release`. -/
def new_release (_new_inode _file : Nat) : Int := -2

/-- Stub `flush`. -/
def new_flush (_file _id : Nat) : Int := -2

/-- Stub `readdir`. -/
def new_readdir (_file _dirent : Nat) (_filldir : Nat) : Int := -2

/-- Stub `open`. -/
def new_open (_old_inode _old_file : Nat) : Int := -2

/-- Stub `rmdir`. -/
def new_rmdir (_new_inode _new_dentry : Nat) : Int := -2

/-- Stub `getattr`. -/
def new_getattr (_mnt _new_dentry _ks : Nat) : Int := -2

/-- The table `new_parent_fop`: `.readdir = parent_readdir`, every other slot
left out of the initializer, hence NULL. -/
def new_parent_fop : file_operations
  | .readdir => some .parent_readdir
  | _ => none

/-- The table `new_fop`: `.readdir`, `.release`, `.open`, `.read`, `.write`,
`.mmap`; every other slot NULL. -/
def new_fop : file_operations
  | .readdir => some .new_readdir
  | .release => some .new_release
  | .open => some .new_open
  | .read => some .new_read
  | .write => some .new_write
  | .mmap => some .new_mmap
  | _ => none

/-- The table `new_iop`: `.getattr` and `.rmdir`; every other slot NULL. -/
def new_iop : inode_operations
  | .getattr => some .new_getattr
  | .rmdir => some .new_rmdir
  | _ => none

/-- What a stub handler returns, whatever it is called with (the arguments are
passed as a list of machine words); `none` for the functions that are not
stubs. -/
def stub_result (f : Fn) (args : List Nat) : Option Int :=
  match f with
  | .new_mmap => some (new_mmap (args.getD 0 0) (args.getD 1 0))
  | .new_read => some (new_read (args.getD 0 0) (args.getD 1 0) (args.getD 2 0) (args.getD 3 0))
  | .new_write => some (new_write (args.getD 0 0) (args.getD 1 0) (args.getD 2 0) (args.getD 3 0))
  | .new_release => some (new_release (args.getD 0 0) (args.getD 1 0))
  | .new_flush => some (new_flush (args.getD 0 0) (args.getD 1 0))
  | .new_readdir => some (new_readdir (args.getD 0 0) (args.getD 1 0) (args.getD 2 0))
  | .new_open => some (new_open (args.getD 0 0) (args.getD 1 0))
  | .new_rmdir => some (new_rmdir (args.getD 0 0) (args.getD 1 0))
  | .new_getattr => some (new_getattr (args.getD 0 0) (args.getD 1 0) (args.getD 2 0))
  | .parent_readdir => none
  | .kernel _ => none

/-! ## The kernel environment -/

/-- One directory entry as a file system's `readdir` hands it to the `filldir`
callback: name, length of the name, offset, inode number and entry type. -/
structure dir_entry where
  name : String
  namelen : Int
  offset : Int
  ux64 : Nat
  ino : Nat
  deriving DecidableEq, Repr

/-- The six arguments of a `filldir_t` call. -/
structure filldir_args where
  buf : Nat
  name : String
  namelen : Int
  offset : Int
  ux64 : Nat
  ino : Nat
  deriving DecidableEq, Repr

/-- The kernel services used by the module.
* `path_lookup p` is the dentry the path resolves to, `none` when
  `path_lookup` returns an error.
* `d_inode`, `d_parent` are the fields of a dentry.
* `d_lookup parent name namelen` is the dentry-cache lookup.
* `fops`, `iops` are the operation tables owned by the kernel, by address.
* `listing f dir` are the entries the kernel `readdir` implementation at
  address `f` produces for the directory `dir`. -/
structure Kernel where
  path_lookup : String → Option Nat
  d_inode : Nat → Nat
  d_parent : Nat → Nat
  d_lookup : Nat → String → Int → Option Nat
  fops : Nat → file_operations
  iops : Nat → inode_operations
  listing : Nat → Nat → List dir_entry

/-- Dereference a `struct file_operations *`. -/
def deref_fop (k : Kernel) : FopPtr → file_operations
  | .new_parent_fop => new_parent_fop
  | .new_fop => new_fop
  | .kernel addr => k.fops addr

/-- Dereference a `struct inode_operations *`. -/
def deref_iop (k : Kernel) : IopPtr → inode_operations
  | .new_iop => new_iop
  | .kernel addr => k.iops addr

/-! ## Module state -/

/-- A `kmalloc`ed array, or NULL, or a pointer that has been `kfree`d. -/
inductive Block (α : Type)
  | null
  | live (cells : List (Option α))
  | freed
  deriving DecidableEq, Repr

/-- A `filldir_t` value: the module's `new_filldir`, or the callback of the
caller of `readdir`.  A caller's callback is a function of the calls it has
received so far and of the current call. -/
inductive filldir_t
  | new_filldir
  | caller (cb : List filldir_args → filldir_args → Int)

/-- The inode heap together with the module's global variables. -/
structure State where
  inodes : Nat → inode
  g_parent_dentry : Option Nat
  g_root_nd : Option Nat
  g_inode_numbers : Block Nat
  g_inode_count : Nat
  g_old_inode_pointer : Block Nat
  g_old_fop_pointer : Block FopPtr
  g_old_iop_pointer : Block IopPtr
  g_old_parent_inode_pointer : Block Nat
  g_old_parent_fop_pointer : Block FopPtr
  real_filldir : Option filldir_t

/-- The state when the module has just been loaded: zero-initialised globals
over a given inode heap. -/
def State.init (h : Nat → inode) : State :=
  { inodes := h
    g_parent_dentry := none
    g_root_nd := none
    g_inode_numbers := .null
    g_inode_count := 0
    g_old_inode_pointer := .null
    g_old_fop_pointer := .null
    g_old_iop_pointer := .null
    g_old_parent_inode_pointer := .null
    g_old_parent_fop_pointer := .null
    real_filldir := none }

/-- The assignment `p->i_fop = v`. -/
def set_i_fop (h : Nat → inode) (p : Nat) (v : FopPtr) : Nat → inode :=
  fun q => if q = p then { h q with i_fop := v } else h q

/-- The assignment `p->i_op = v`. -/
def set_i_op (h : Nat → inode) (p : Nat) (v : IopPtr) : Nat → inode :=
  fun q => if q = p then { h q with i_op := v } else h q

/-! ## Memory blocks -/

/-- The call `kmalloc(n * sizeof(cell), GFP_KERNEL)`. -/
def kmalloc {α : Type} (n : Nat) : Block α :=
  .live (List.replicate n none)

/-- The call `krealloc(b, n * sizeof(cell), GFP_KERNEL)`: the old contents are
kept, the added cells are unwritten. -/
def krealloc {α : Type} (b : Block α) (n : Nat) : Outcome (Block α) :=
  match b with
  | .null => .ok (kmalloc n)
  | .live cells => .ok (.live (cells.take n ++ List.replicate (n - cells.length) none))
  | .freed => .error .oops

/-- The call `kfree(b)`; `kfree(NULL)` does nothing. -/
def kfree {α : Type} (b : Block α) : Outcome (Block α) :=
  match b with
  | .null => .ok .null
  | .live _ => .ok .freed
  | .freed => .error .oops

/-- The assignment `b[i] = v`. -/
def Block.store {α : Type} (b : Block α) (i : Nat) (v : α) : Outcome (Block α) :=
  match b with
  | .live cells => if i < cells.length then .ok (.live (cells.set i (some v))) else .error .oops
  | _ => .error .oops

/-- The read `b[i]`. -/
def Block.load {α : Type} (b : Block α) (i : Nat) : Outcome α :=
  match b with
  | .live cells =>
    match cells[i]? with
    | some (some v) => .ok v
    | _ => .error .oops
  | _ => .error .oops

/-! ## Registration: `allocate_memmory`, `reallocate_memmory`, `hook_functions` -/

/-- The value `(unsigned long)-1`. -/
def ULONG_MINUS_ONE : Nat := 2 ^ 64 - 1

/-- The function `allocate_memmory`: one cell for each array. -/
def allocate_memmory (s : State) : State :=
  { s with
    g_old_inode_pointer := kmalloc 1
    g_old_fop_pointer := kmalloc 1
    g_old_iop_pointer := kmalloc 1
    g_old_parent_inode_pointer := kmalloc 1
    g_old_parent_fop_pointer := kmalloc 1
    g_inode_numbers := kmalloc 1 }

/-- The function `reallocate_memmory`: every array gets `g_inode_count + 1`
cells. -/
def reallocate_memmory (s : State) : Outcome State := do
  let a0 ← krealloc s.g_inode_numbers (s.g_inode_count + 1)
  let a1 ← krealloc s.g_old_inode_pointer (s.g_inode_count + 1)
  let a2 ← krealloc s.g_old_fop_pointer (s.g_inode_count + 1)
  let a3 ← krealloc s.g_old_iop_pointer (s.g_inode_count + 1)
  let a4 ← krealloc s.g_old_parent_inode_pointer (s.g_inode_count + 1)
  let a5 ← krealloc s.g_old_parent_fop_pointer (s.g_inode_count + 1)
  pure { s with
    g_inode_numbers := a0
    g_old_inode_pointer := a1
    g_old_fop_pointer := a2
    g_old_iop_pointer := a3
    g_old_parent_inode_pointer := a4
    g_old_parent_fop_pointer := a5 }

/-- The part of `hook_functions` after the NULL check: save the pointers and the
inode number at index `g_inode_count`, count the record, grow the arrays, then
install the three stub tables.  `nd` is the dentry of the target. -/
def hook_install (k : Kernel) (nd : Nat) (s : State) : Outcome State := do
  let target := k.d_inode nd
  let parent := k.d_inode (k.d_parent nd)
  let a1 ← s.g_old_inode_pointer.store s.g_inode_count target
  let a2 ← s.g_old_fop_pointer.store s.g_inode_count (s.inodes target).i_fop
  let a3 ← s.g_old_iop_pointer.store s.g_inode_count (s.inodes target).i_op
  let a4 ← s.g_old_parent_inode_pointer.store s.g_inode_count parent
  let a5 ← s.g_old_parent_fop_pointer.store s.g_inode_count (s.inodes parent).i_fop
  let a0 ← s.g_inode_numbers.store s.g_inode_count (s.inodes target).i_ino
  let s1 : State := { s with
    g_old_inode_pointer := a1
    g_old_fop_pointer := a2
    g_old_iop_pointer := a3
    g_old_parent_inode_pointer := a4
    g_old_parent_fop_pointer := a5
    g_inode_numbers := a0
    g_inode_count := s.g_inode_count + 1 }
  let s2 ← reallocate_memmory s1
  let h1 := set_i_fop s2.inodes parent .new_parent_fop
  let h2 := set_i_op h1 target .new_iop
  let h3 := set_i_fop h2 target .new_fop
  pure { s2 with inodes := h3 }

/-- The function `hook_functions`.  The result is the returned `unsigned long`
(`0`, or `(unsigned long)-1`) and the state after the call. -/
def hook_functions (k : Kernel) (file_path : String) (s : State) : Outcome (Nat × State) :=
  match k.path_lookup "/root" with
  | none => .ok (ULONG_MINUS_ONE, s)
  | some root =>
    let s0 : State := { s with g_root_nd := some root }
    match k.path_lookup file_path with
    | none => .ok (ULONG_MINUS_ONE, s0)
    | some nd =>
      let s1 := if s0.g_inode_count = 0 then allocate_memmory s0 else s0
      match s1.g_inode_numbers with
      | .null => .ok (ULONG_MINUS_ONE, s1)
      | _ =>
        match hook_install k nd s1 with
        | .ok s2 => .ok (0, s2)
        | .error e => .error e

/-! ## Restoration: `backup_functions` -/

/-- One iteration of the loop of `backup_functions`, for the array index `j`. -/
def backup_step (s : State) (j : Nat) (h : Nat → inode) : Outcome (Nat → inode) := do
  let pInode ← s.g_old_inode_pointer.load j
  let fop ← s.g_old_fop_pointer.load j
  let h1 := set_i_fop h pInode fop
  let iop ← s.g_old_iop_pointer.load j
  let h2 := set_i_op h1 pInode iop
  let pParentInode ← s.g_old_parent_inode_pointer.load j
  let pfop ← s.g_old_parent_fop_pointer.load j
  pure (set_i_fop h2 pParentInode pfop)

/-- The loop `for (i = 0; i < g_inode_count; i++)` of `backup_functions`, with
`todo` iterations left, the next one for loop variable `i`. -/
def backup_loop (s : State) : Nat → Nat → (Nat → inode) → Outcome (Nat → inode)
  | 0, _, h => .ok h
  | todo + 1, i, h =>
    match backup_step s ((s.g_inode_count - 1) - i) h with
    | .ok h1 => backup_loop s todo (i + 1) h1
    | .error e => .error e

/-- The function `backup_functions`: restore in reverse order of registration,
then free the six arrays.  `g_inode_count` is left as it is. -/
def backup_functions (s : State) : Outcome State := do
  let h ← backup_loop s s.g_inode_count 0 s.inodes
  let a1 ← kfree s.g_old_inode_pointer
  let a2 ← kfree s.g_old_fop_pointer
  let a3 ← kfree s.g_old_iop_pointer
  let a4 ← kfree s.g_old_parent_inode_pointer
  let a5 ← kfree s.g_old_parent_fop_pointer
  let a0 ← kfree s.g_inode_numbers
  pure { s with
    inodes := h
    g_old_inode_pointer := a1
    g_old_fop_pointer := a2
    g_old_iop_pointer := a3
    g_old_parent_inode_pointer := a4
    g_old_parent_fop_pointer := a5
    g_inode_numbers := a0 }

/-! ## Enumeration: `new_filldir`, `parent_readdir` -/

/-- The value of `(unsigned int)(g_inode_count - 1)`, the bound the loop
variable of `new_filldir` is compared with. -/
def scan_bound (count : Nat) : Nat :=
  Int.toNat ((((count : Int) - 1)) % 4294967296)

/-- What the loop of `new_filldir` did: the indices at which it read
`g_inode_numbers`, in order, and how it ended (`true`: an entry matched). -/
structure Scan where
  visited : List Nat
  result : Outcome Bool
  deriving DecidableEq, Repr

/-- The loop `for (i = 0; i <= g_inode_count - 1; i++)` of `new_filldir`, from
loop variable `i` on, looking for the inode number `ino`.  `i` is an
`unsigned int`.  The first argument bounds the number of iterations. -/
def inode_scan (numbers : Block Nat) (bound ino : Nat) : Nat → Nat → Scan
  | 0, _ => ⟨[], .error .diverges⟩
  | fuel + 1, i =>
    if i ≤ bound then
      match numbers.load i with
      | .ok v =>
        if v = ino then ⟨[i], .ok true⟩
        else
          let r := inode_scan numbers bound ino fuel ((i + 1) % 4294967296)
          ⟨i :: r.visited, r.result⟩
      | .error e => ⟨[i], .error e⟩
    else ⟨[], .ok false⟩

/-- Number of cells of a block (0 for NULL and freed pointers). -/
def Block.capacity {α : Type} : Block α → Nat
  | .live cells => cells.length
  | _ => 0

/-- The scan of `new_filldir` over the current registry.  An iteration either
leaves the loop or reads the next cell, and reading past the block is a fault,
so `capacity + 1` iterations are enough for every block below `2^32` cells. -/
def registry_scan (s : State) (ino : Nat) : Scan :=
  inode_scan s.g_inode_numbers (scan_bound s.g_inode_count) ino
    (s.g_inode_numbers.capacity + 1) 0

/-- The function `new_filldir`.  `call` performs a call through a `filldir_t`
pointer; `hist` are the calls the caller's callback has received so far.  The
result is the returned `int` and the calls received afterwards. -/
def new_filldir (k : Kernel)
    (call : filldir_t → filldir_args → List filldir_args → Outcome (Int × List filldir_args))
    (a : filldir_args) (s : State) (hist : List filldir_args) :
    Outcome (Int × List filldir_args) :=
  match s.g_parent_dentry with
  | none => .error .oops
  | some parent =>
    let found : Outcome Bool :=
      match k.d_lookup parent a.name a.namelen with
      | some pDentry => (registry_scan s (s.inodes (k.d_inode pDentry)).i_ino).result
      | none => .ok false
    match found with
    | .error e => .error e
    | .ok true => .ok (0, hist)
    | .ok false =>
      match s.real_filldir with
      | none => .error .oops
      | some f => call f a hist

/-- A call through a `filldir_t` pointer, with `fuel` bounding the depth of
nested calls. -/
def call_filldir (k : Kernel) :
    Nat → filldir_t → filldir_args → State → List filldir_args →
      Outcome (Int × List filldir_args)
  | 0, _, _, _, _ => .error .diverges
  | _ + 1, .caller cb, a, _, hist => .ok (cb hist a, hist ++ [a])
  | fuel + 1, .new_filldir, a, s, hist =>
    new_filldir k (fun f b h => call_filldir k fuel f b s h) a s hist

/-- A `readdir` implementation of a real file system: it calls `filldir` for the
entries of the directory in order, stops at the first call that does not
return 0, and returns 0. -/
def kernel_readdir
    (call : filldir_args → List filldir_args → Outcome (Int × List filldir_args))
    (dirent : Nat) : List dir_entry → List filldir_args → Outcome (Int × List filldir_args)
  | [], hist => .ok (0, hist)
  | e :: es, hist =>
    match call ⟨dirent, e.name, e.namelen, e.offset, e.ux64, e.ino⟩ hist with
    | .error err => .error err
    | .ok (r, hist1) => if r = 0 then kernel_readdir call dirent es hist1 else .ok (0, hist1)

/-- The field of `struct file` the module reads. -/
structure file where
  f_dentry : Nat
  deriving DecidableEq, Repr

/-- A call `f(file, dirent, filldir)` of a `readdir` implementation through a
function pointer, with `fuel` bounding the depth of nested calls.  The case
`Fn.parent_readdir` is the module's `parent_readdir`: it stores the directory
and the callback in the globals and calls the `readdir` of the table currently
installed on the inode of `g_root_nd`, with `new_filldir` as the callback. -/
def call_readdir (k : Kernel) :
    Nat → Fn → file → Nat → filldir_t → State → List filldir_args →
      Outcome (Int × State × List filldir_args)
  | 0, _, _, _, _, _, _ => .error .diverges
  | fuel + 1, .parent_readdir, fl, dirent, filldir, s, hist =>
    let s1 : State := { s with g_parent_dentry := some fl.f_dentry, real_filldir := some filldir }
    match s1.g_root_nd with
    | none => .error .oops
    | some root =>
      match deref_fop k (s1.inodes (k.d_inode root)).i_fop .readdir with
      | none => .error .oops
      | some f => call_readdir k fuel f fl dirent .new_filldir s1 hist
  | _ + 1, .new_readdir, fl, dirent, _, s, hist => .ok (new_readdir fl.f_dentry dirent 0, s, hist)
  | fuel + 1, .kernel addr, fl, dirent, filldir, s, hist =>
    match kernel_readdir (fun a h => call_filldir k fuel filldir a s h) dirent
        (k.listing addr fl.f_dentry) hist with
    | .error err => .error err
    | .ok (r, hist1) => .ok (r, s, hist1)
  | _ + 1, _, _, _, _, _, _ => .error .oops

/-- The function `parent_readdir`. -/
def parent_readdir (k : Kernel) (fuel : Nat) (fl : file) (dirent : Nat) (filldir : filldir_t)
    (s : State) (hist : List filldir_args) : Outcome (Int × State × List filldir_args) :=
  call_readdir k fuel .parent_readdir fl dirent filldir s hist

/-- The kernel's `vfs_readdir` on a freshly opened directory `dir`: the file's
table is the `i_fop` of the inode, a table without `readdir` gives `-ENOTDIR`,
otherwise `readdir` is called with the caller's callback `cb`. -/
def vfs_readdir (k : Kernel) (fuel : Nat) (dir : Nat) (dirent : Nat)
    (cb : List filldir_args → filldir_args → Int) (s : State) :
    Outcome (Int × State × List filldir_args) :=
  match deref_fop k (s.inodes (k.d_inode dir)).i_fop .readdir with
  | none => .ok (-20, s, [])
  | some f => call_readdir k fuel f ⟨dir⟩ dirent (.caller cb) s []

/-! ## The control channel: `dev_write` -/

/-- The conversion of a `size_t` to the returned `ssize_t`. -/
def to_ssize (n : Nat) : Int :=
  if n % 2 ^ 64 < 2 ^ 63 then ((n % 2 ^ 64 : Nat) : Int) else ((n % 2 ^ 64 : Nat) : Int) - 2 ^ 64

/-- The C string starting at the beginning of a buffer: the bytes before the
first NUL.  A buffer without NUL is read past its end. -/
def c_string (buffer : List Char) : Outcome (List Char) :=
  if Char.ofNat 0 ∈ buffer then .ok (buffer.takeWhile (fun c => c ≠ Char.ofNat 0))
  else .error .oops

/-- The path `dev_write` passes to `hook_functions`, computed from the content
of the kernel buffer `pFile_Path` after `strncpy_from_user`: when the string
contains a newline, the byte at index `length - 1` (a `size_t` computation) is
overwritten with NUL. -/
def path_of_buffer (buffer : List Char) (length : Nat) : Outcome String := do
  let str ← c_string buffer
  let buffer1 :=
    if Char.ofNat 10 ∈ str then buffer.set ((length + 2 ^ 64 - 1) % 2 ^ 64) (Char.ofNat 0)
    else buffer
  let path ← c_string buffer1
  pure (String.mk path)

/-- The function `dev_write`.  `copied` is the content of the kernel buffer
`pFile_Path` after `strncpy_from_user`, or `none` when that call returned
`-EFAULT`; `length` is the `size_t` argument.  The result is the returned
`ssize_t` and the state after the call. -/
def dev_write (k : Kernel) (copied : Option (List Char)) (length : Nat) (s : State) :
    Outcome (Int × State) :=
  match copied with
  | none => .ok (to_ssize (2 ^ 64 - 1), s)
  | some buffer =>
    match path_of_buffer buffer length with
    | .error e => .error e
    | .ok path =>
      match hook_functions k path s with
      | .error e => .error e
      | .ok (r, s1) =>
        if r = ULONG_MINUS_ONE then .ok (to_ssize (2 ^ 64 - 2), s1)
        else .ok (to_ssize length, s1)

/-- A sequence of writes to the device reaches `hook_functions` as a sequence of
calls, each with the kernel environment at that time and the path written. -/
structure Call where
  k : Kernel
  path : String

/-- Run `hook_functions` for a sequence of calls, ignoring the returned values. -/
def run : List Call → State → Outcome State
  | [], s => .ok s
  | c :: cs, s =>
    match hook_functions c.k c.path s with
    | .ok (_, s1) => run cs s1
    | .error e => .error e

/-! ## Concrete file systems used for the worked examples -/

/-- A file system with `/root` (dentry 1, inode 100) holding `secret.txt`
(dentry 2, inode 101, inode number 7001) and `notes.txt` (dentry 3, inode 102,
inode number 7002); every inode starts with the kernel tables at address 500
(file operations) and 600 (inode operations); the `readdir` of table 500 is the
kernel function at address 900. -/
def rootfs : Kernel :=
  { path_lookup := fun p =>
      if p = "/root" then some 1
      else if p = "/root/secret.txt" then some 2
      else if p = "/root/notes.txt" then some 3
      else none
    d_inode := fun d => 99 + d
    d_parent := fun _ => 1
    d_lookup := fun parent name _ =>
      if parent = 1 ∧ name = "secret.txt" then some 2
      else if parent = 1 ∧ name = "notes.txt" then some 3
      else none
    fops := fun addr slot =>
      if addr = 500 then
        match slot with
        | .readdir => some (.kernel 900)
        | .llseek => some (.kernel 901)
        | .open => some (.kernel 902)
        | _ => none
      else none
    iops := fun _ _ => none
    listing := fun f dir =>
      if f = 900 ∧ dir = 1 then
        [⟨"secret.txt", 10, 1, 7001, 8⟩, ⟨"notes.txt", 9, 2, 7002, 8⟩]
      else [] }

/-- The inode heap of the example file systems: inode `p` has inode number
`p + 6900` and the kernel tables 500 and 600. -/
def heap0 : Nat → inode :=
  fun p => ⟨p + 6900, .kernel 500, .kernel 600⟩

/-- A caller's callback that accepts every entry. -/
def accept_all : List filldir_args → filldir_args → Int :=
  fun _ _ => 0

/-! ## Bookkeeping used to state and prove the properties -/

/-- What one registration saves at one index of the six arrays. -/
structure Record where
  target : Nat
  fop : FopPtr
  iop : IopPtr
  parent : Nat
  pfop : FopPtr
  ino : Nat
  deriving DecidableEq, Repr

/-- The record a registration of target inode `t` with parent inode `p` saves
when the heap is `h`. -/
def capture (h : Nat → inode) (t p : Nat) : Record :=
  ⟨t, (h t).i_fop, (h t).i_op, p, (h p).i_fop, (h t).i_ino⟩

/-- The three table assignments at the end of `hook_functions`. -/
def install (h : Nat → inode) (t p : Nat) : Nat → inode :=
  set_i_fop (set_i_op (set_i_fop h p .new_parent_fop) t .new_iop) t .new_fop

/-- The three table assignments of one iteration of `backup_functions`. -/
def restore (h : Nat → inode) (r : Record) : Nat → inode :=
  set_i_fop (set_i_op (set_i_fop h r.target r.fop) r.target r.iop) r.parent r.pfop

/-- The cells of an array that holds one field of the records `rs`, followed by
the one unwritten cell `reallocate_memmory` adds. -/
def cells_of {α : Type} (f : Record → α) (rs : List Record) : List (Option α) :=
  rs.map (fun r => some (f r)) ++ [none]

/-- The six arrays hold exactly the records `rs`. -/
structure Registry (s : State) (rs : List Record) : Prop where
  count : s.g_inode_count = rs.length
  numbers : s.g_inode_numbers = .live (cells_of Record.ino rs)
  inodes : s.g_old_inode_pointer = .live (cells_of Record.target rs)
  fops : s.g_old_fop_pointer = .live (cells_of Record.fop rs)
  iops : s.g_old_iop_pointer = .live (cells_of Record.iop rs)
  parents : s.g_old_parent_inode_pointer = .live (cells_of Record.parent rs)
  pfops : s.g_old_parent_fop_pointer = .live (cells_of Record.pfop rs)

/-- No array has been allocated yet. -/
structure Unallocated (s : State) : Prop where
  count : s.g_inode_count = 0
  numbers : s.g_inode_numbers = .null
  inodes : s.g_old_inode_pointer = .null
  fops : s.g_old_fop_pointer = .null
  iops : s.g_old_iop_pointer = .null
  parents : s.g_old_parent_inode_pointer = .null
  pfops : s.g_old_parent_fop_pointer = .null

/-- The dentry a call of `hook_functions` registers: the target's dentry when
both `path_lookup`s succeed. -/
def Call.resolve (c : Call) : Option Nat :=
  match c.k.path_lookup "/root" with
  | none => none
  | some _ => c.k.path_lookup c.path

/-- The target inode of a resolved call. -/
def Call.target (c : Call) (nd : Nat) : Nat := c.k.d_inode nd

/-- The parent inode of a resolved call. -/
def Call.parent (c : Call) (nd : Nat) : Nat := c.k.d_inode (c.k.d_parent nd)

/-- The inode heap after a sequence of calls, starting from `h`. -/
def heap_after : List Call → (Nat → inode) → (Nat → inode)
  | [], h => h
  | c :: cs, h =>
    match c.resolve with
    | none => heap_after cs h
    | some nd => heap_after cs (install h (c.target nd) (c.parent nd))

/-- The records a sequence of calls saves, starting from the heap `h`. -/
def saved : List Call → (Nat → inode) → List Record
  | [], _ => []
  | c :: cs, h =>
    match c.resolve with
    | none => saved cs h
    | some nd =>
      capture h (c.target nd) (c.parent nd) :: saved cs (install h (c.target nd) (c.parent nd))

/-- Undo the registrations of the records, first record of the list first. -/
def undo (h : Nat → inode) (rs : List Record) : Nat → inode :=
  rs.foldl restore h

/-- The inodes a sequence of calls writes to: the target and the parent of
every call that resolves. -/
def touched : List Call → List Nat
  | [] => []
  | c :: cs =>
    match c.resolve with
    | none => touched cs
    | some nd => c.target nd :: c.parent nd :: touched cs

/-- The condition under which the specification withholds a directory entry:
`d_lookup` resolves the name in the enumerated directory and the inode number
of the resolved inode is one of `g_inode_numbers[0 .. g_inode_count - 1]`. -/
def resolves_to_registered (k : Kernel) (s : State) (a : filldir_args) : Prop :=
  ∃ parent pDentry, s.g_parent_dentry = some parent ∧
    k.d_lookup parent a.name a.namelen = some pDentry ∧
    ∃ i, i < s.g_inode_count ∧
      s.g_inode_numbers.load i = .ok (s.inodes (k.d_inode pDentry)).i_ino

/-- The globals as `parent_readdir` leaves them when it is called for the
directory `dir` with the caller's callback `cb`. -/
def State.enumerating (s : State) (dir : Nat) (cb : List filldir_args → filldir_args → Int) :
    State :=
  { s with g_parent_dentry := some dir, real_filldir := some (.caller cb) }

/-- The state after `/root/secret.txt` has been registered on `rootfs`. -/
def hidden_secret : State :=
  match run [⟨rootfs, "/root/secret.txt"⟩] (State.init heap0) with
  | .ok s => s
  | .error _ => State.init heap0

/-- A file system with three directories, `/root` (dentry 1), `/srv` (dentry 2)
and `/tmp` (dentry 3), below the root dentry 0.  `/tmp/t` is dentry 4, `/srv/u`
is dentry 5, and `/srv/link` (dentry 6) is a second link to the inode of
`/tmp/t`.  Dentry `d` has inode `99 + d`, except the link, whose inode is 103.
Tables and `readdir` are as in `rootfs`. -/
def twodirs : Kernel :=
  { path_lookup := fun p =>
      if p = "/root" then some 1
      else if p = "/srv" then some 2
      else if p = "/tmp" then some 3
      else if p = "/tmp/t" then some 4
      else if p = "/srv/u" then some 5
      else if p = "/srv/link" then some 6
      else none
    d_inode := fun d => if d = 6 then 103 else 99 + d
    d_parent := fun d => if d = 4 then 3 else if d = 5 ∨ d = 6 then 2 else 0
    d_lookup := fun parent name _ =>
      if parent = 3 ∧ name = "t" then some 4
      else if parent = 2 ∧ name = "u" then some 5
      else if parent = 2 ∧ name = "link" then some 6
      else none
    fops := rootfs.fops
    iops := rootfs.iops
    listing := fun f dir =>
      if f = 900 ∧ dir = 2 then [⟨"u", 1, 1, 7004, 8⟩, ⟨"link", 4, 2, 7003, 8⟩]
      else if f = 900 ∧ dir = 3 then [⟨"t", 1, 1, 7003, 8⟩]
      else [] }

/-- The result of an enumeration as the caller sees it: the returned value and
the names its callback received. -/
def seen (o : Outcome (Int × State × List filldir_args)) : Outcome (Int × List String) :=
  match o with
  | .ok (r, _, hist) => .ok (r, hist.map filldir_args.name)
  | .error e => .error e

/-- The state after `/tmp/t` and then `/srv/u` have been registered on
`twodirs`. -/
def hidden_two : State :=
  match run [⟨twodirs, "/tmp/t"⟩, ⟨twodirs, "/srv/u"⟩] (State.init heap0) with
  | .ok s => s
  | .error _ => State.init heap0

/-- The kernel buffer after a write of the 13 bytes `/root/missing`: the bytes
copied from user space followed by a NUL. -/
def missing_buffer : List Char :=
  "/root/missing".toList ++ [Char.ofNat 0]

/-- The kernel buffer after a write of the 16 bytes `/root/secret.txt`. -/
def secret_buffer : List Char :=
  "/root/secret.txt".toList ++ [Char.ofNat 0]

/-- The returned value of a `dev_write` call. -/
def returned (o : Outcome (Int × State)) : Outcome Int :=
  match o with
  | .ok (r, _) => .ok r
  | .error e => .error e

/-! ## Lemmas on blocks -/

theorem store_cells_of {α : Type} (f : Record → α) (rs : List Record) (v : α) :
    (Block.live (cells_of f rs)).store rs.length v
      = .ok (.live (rs.map (fun r => some (f r)) ++ [some v])) := by
  simp [Block.store, cells_of, List.set_append]

theorem krealloc_cells_of {α : Type} (f : Record → α) (rs : List Record) (r : Record) :
    krealloc (Block.live (rs.map (fun r => some (f r)) ++ [some (f r)])) (rs.length + 1 + 1)
      = .ok (.live (cells_of f (rs ++ [r]))) := by
  have hlen : (rs.map (fun r => some (f r)) ++ [some (f r)]).length ≤ rs.length + 1 + 1 := by
    simp
  simp only [krealloc, List.take_of_length_le hlen]
  simp [cells_of]

theorem load_cells_of {α : Type} (f : Record → α) (rs : List Record) (i : Nat)
    (hi : i < rs.length) :
    (Block.live (cells_of f rs)).load i = .ok (f (rs.get ⟨i, hi⟩)) := by
  simp [Block.load, cells_of, List.getElem?_append_left, hi]


/-! ## One registration -/

theorem hook_install_registry (k : Kernel) (nd : Nat) (s : State) (rs : List Record)
    (hreg : Registry s rs) :
    ∃ s1, hook_install k nd s = .ok s1 ∧
      Registry s1 (rs ++ [capture s.inodes (k.d_inode nd) (k.d_inode (k.d_parent nd))]) ∧
      s1.inodes = install s.inodes (k.d_inode nd) (k.d_inode (k.d_parent nd)) ∧
      s1.g_root_nd = s.g_root_nd ∧ s1.g_parent_dentry = s.g_parent_dentry ∧
      s1.real_filldir = s.real_filldir := by
  obtain ⟨hc, h0, h1, h2, h3, h4, h5⟩ := hreg
  simp only [hook_install, reallocate_memmory, hc, h0, h1, h2, h3, h4, h5, store_cells_of,
    bind, Except.bind, pure, Except.pure]
  have e0 := krealloc_cells_of Record.ino rs
    (capture s.inodes (k.d_inode nd) (k.d_inode (k.d_parent nd)))
  have e1 := krealloc_cells_of Record.target rs
    (capture s.inodes (k.d_inode nd) (k.d_inode (k.d_parent nd)))
  have e2 := krealloc_cells_of Record.fop rs
    (capture s.inodes (k.d_inode nd) (k.d_inode (k.d_parent nd)))
  have e3 := krealloc_cells_of Record.iop rs
    (capture s.inodes (k.d_inode nd) (k.d_inode (k.d_parent nd)))
  have e4 := krealloc_cells_of Record.parent rs
    (capture s.inodes (k.d_inode nd) (k.d_inode (k.d_parent nd)))
  have e5 := krealloc_cells_of Record.pfop rs
    (capture s.inodes (k.d_inode nd) (k.d_inode (k.d_parent nd)))
  simp only [capture] at e0 e1 e2 e3 e4 e5
  simp only [e0, e1, e2, e3, e4, e5]
  refine ⟨_, rfl, ?_, rfl, rfl, rfl, rfl⟩
  exact ⟨by simp, rfl, rfl, rfl, rfl, rfl, rfl⟩


theorem hook_functions_unresolved (c : Call) (s : State) (hres : c.resolve = none) :
    ∃ s1, hook_functions c.k c.path s = .ok (ULONG_MINUS_ONE, s1) ∧
      s1.inodes = s.inodes ∧ s1.g_inode_count = s.g_inode_count ∧
      s1.g_inode_numbers = s.g_inode_numbers ∧
      s1.g_old_inode_pointer = s.g_old_inode_pointer ∧
      s1.g_old_fop_pointer = s.g_old_fop_pointer ∧
      s1.g_old_iop_pointer = s.g_old_iop_pointer ∧
      s1.g_old_parent_inode_pointer = s.g_old_parent_inode_pointer ∧
      s1.g_old_parent_fop_pointer = s.g_old_parent_fop_pointer := by
  unfold Call.resolve at hres
  unfold hook_functions
  cases hroot : c.k.path_lookup "/root" with
  | none => exact ⟨s, rfl, rfl, rfl, rfl, rfl, rfl, rfl, rfl, rfl⟩
  | some root =>
    rw [hroot] at hres
    simp only at hres
    simp only [hres]
    exact ⟨_, rfl, rfl, rfl, rfl, rfl, rfl, rfl, rfl, rfl⟩

theorem allocate_registry (s : State) (hc : s.g_inode_count = 0) :
    Registry (allocate_memmory s) [] :=
  ⟨hc, rfl, rfl, rfl, rfl, rfl, rfl⟩

theorem hook_functions_resolved (c : Call) (s : State) (rs : List Record) (nd : Nat)
    (hres : c.resolve = some nd)
    (hs : (rs = [] ∧ Unallocated s) ∨ Registry s rs) :
    ∃ s1, hook_functions c.k c.path s = .ok (0, s1) ∧
      Registry s1 (rs ++ [capture s.inodes (c.target nd) (c.parent nd)]) ∧
      s1.inodes = install s.inodes (c.target nd) (c.parent nd) ∧
      s1.g_root_nd = c.k.path_lookup "/root" := by
  unfold Call.resolve at hres
  unfold hook_functions
  cases hroot : c.k.path_lookup "/root" with
  | none => rw [hroot] at hres; cases hres
  | some root =>
    rw [hroot] at hres
    simp only at hres
    simp only [hres]
    have key : ∀ s1 : State, Registry s1 rs → s1.inodes = s.inodes →
        s1.g_root_nd = some root →
        ∃ s2, (match s1.g_inode_numbers with
          | .null => (.ok (ULONG_MINUS_ONE, s1) : Outcome (Nat × State))
          | _ =>
            match hook_install c.k nd s1 with
            | .ok s2 => .ok (0, s2)
            | .error e => .error e) = .ok (0, s2) ∧
          Registry s2 (rs ++ [capture s.inodes (c.target nd) (c.parent nd)]) ∧
          s2.inodes = install s.inodes (c.target nd) (c.parent nd) ∧
          s2.g_root_nd = some root := by
      intro s1 hreg hin hr
      obtain ⟨s2, e, hreg2, hin2, hr2, _, _⟩ := hook_install_registry c.k nd s1 rs hreg
      refine ⟨s2, ?_, ?_, ?_, ?_⟩
      · rw [hreg.numbers, e]
      · rw [hin] at hreg2; exact hreg2
      · rw [hin] at hin2; exact hin2
      · rw [hr2, hr]
    generalize hgen : (if s.g_inode_count = 0
      then allocate_memmory ({ s with g_root_nd := some root } : State)
      else ({ s with g_root_nd := some root } : State)) = s1
    have hs1 : Registry s1 rs ∧ s1.inodes = s.inodes ∧ s1.g_root_nd = some root := by
      by_cases h0 : s.g_inode_count = 0
      · rw [if_pos h0] at hgen
        have hnil : rs = [] := by
          rcases hs with ⟨hnil, _⟩ | hreg
          · exact hnil
          · have := hreg.count
            rw [h0] at this
            exact List.length_eq_zero.mp this.symm
        subst hnil
        subst hgen
        exact ⟨allocate_registry _ h0, rfl, rfl⟩
      · rw [if_neg h0] at hgen
        subst hgen
        rcases hs with ⟨_, hun⟩ | hreg
        · exact absurd hun.count h0
        · exact ⟨⟨hreg.count, hreg.numbers, hreg.inodes, hreg.fops, hreg.iops, hreg.parents,
            hreg.pfops⟩, rfl, rfl⟩
    exact key s1 hs1.1 hs1.2.1 hs1.2.2

/-! ## Sequences of registrations -/

theorem run_tracked (cs : List Call) :
    ∀ (s : State) (rs : List Record), ((rs = [] ∧ Unallocated s) ∨ Registry s rs) →
      ∃ s1, run cs s = .ok s1 ∧ s1.inodes = heap_after cs s.inodes ∧
        ((rs ++ saved cs s.inodes = [] ∧ Unallocated s1) ∨
          Registry s1 (rs ++ saved cs s.inodes)) := by
  induction cs with
  | nil =>
    intro s rs hs
    refine ⟨s, rfl, rfl, ?_⟩
    simpa [saved] using hs
  | cons c cs ih =>
    intro s rs hs
    cases hres : c.resolve with
    | none =>
      obtain ⟨s1, e, hin, hcnt, h0, h1, h2, h3, h4, h5⟩ := hook_functions_unresolved c s hres
      have hs1 : (rs = [] ∧ Unallocated s1) ∨ Registry s1 rs := by
        rcases hs with ⟨hnil, hun⟩ | hreg
        · left
          exact ⟨hnil, ⟨hcnt.trans hun.count, h0.trans hun.numbers, h1.trans hun.inodes,
            h2.trans hun.fops, h3.trans hun.iops, h4.trans hun.parents, h5.trans hun.pfops⟩⟩
        · right
          exact ⟨hcnt.trans hreg.count, h0.trans hreg.numbers, h1.trans hreg.inodes,
            h2.trans hreg.fops, h3.trans hreg.iops, h4.trans hreg.parents,
            h5.trans hreg.pfops⟩
      obtain ⟨s2, e2, hin2, hreg2⟩ := ih s1 rs hs1
      refine ⟨s2, ?_, ?_, ?_⟩
      · simp only [run, e, e2]
      · simp only [heap_after, hres, hin2, hin]
      · simpa only [saved, hres, hin] using hreg2
    | some nd =>
      obtain ⟨s1, e, hreg1, hin, _⟩ := hook_functions_resolved c s rs nd hres hs
      obtain ⟨s2, e2, hin2, hreg2⟩ := ih s1 _ (Or.inr hreg1)
      refine ⟨s2, ?_, ?_, ?_⟩
      · simp only [run, e, e2]
      · simp only [heap_after, hres, hin2, hin]
      · simpa only [saved, hres, hin, List.append_assoc, List.singleton_append] using hreg2

theorem unallocated_init (h : Nat → inode) : Unallocated (State.init h) :=
  ⟨rfl, rfl, rfl, rfl, rfl, rfl, rfl⟩

theorem run_init (cs : List Call) (h0 : Nat → inode) :
    ∃ s, run cs (State.init h0) = .ok s ∧ s.inodes = heap_after cs h0 ∧
      ((saved cs h0 = [] ∧ Unallocated s) ∨ Registry s (saved cs h0)) := by
  simpa using run_tracked cs (State.init h0) [] (Or.inl ⟨rfl, unallocated_init h0⟩)


/-! ## Restoration -/

theorem restore_install (h : Nat → inode) (t p : Nat) :
    restore (install h t p) (capture h t p) = h := by
  funext q
  by_cases hp : q = p
  · subst hp
    by_cases ht : q = t
    · subst ht
      simp [restore, install, capture, set_i_fop, set_i_op]
    · have ht2 : ¬ t = q := fun e => ht e.symm
      simp [restore, install, capture, set_i_fop, set_i_op, ht, ht2]
  · by_cases ht : q = t
    · subst ht
      have hp2 : ¬ p = q := fun e => hp e.symm
      simp [restore, install, capture, set_i_fop, set_i_op, hp, hp2]
    · simp [restore, install, capture, set_i_fop, set_i_op, hp, ht]

theorem undo_saved (cs : List Call) :
    ∀ h : Nat → inode, undo (heap_after cs h) (saved cs h).reverse = h := by
  induction cs with
  | nil => intro h; rfl
  | cons c cs ih =>
    intro h
    cases hres : c.resolve with
    | none => simpa only [heap_after, saved, hres] using ih h
    | some nd =>
      simp only [heap_after, saved, hres, List.reverse_cons, undo, List.foldl_append,
        List.foldl_cons, List.foldl_nil]
      have := ih (install h (c.target nd) (c.parent nd))
      simp only [undo] at this
      rw [this, restore_install]

theorem backup_step_registry (s : State) (rs : List Record) (hreg : Registry s rs)
    (j : Nat) (hj : j < rs.length) (h : Nat → inode) :
    backup_step s j h = .ok (restore h (rs.get ⟨j, hj⟩)) := by
  simp only [backup_step, hreg.inodes, hreg.fops, hreg.iops, hreg.parents, hreg.pfops,
    load_cells_of _ rs j hj, bind, Except.bind, pure, Except.pure, restore]

theorem backup_loop_registry (s : State) (rs : List Record) (hreg : Registry s rs) :
    ∀ (todo i : Nat) (h : Nat → inode), i + todo = rs.length →
      backup_loop s todo i h = .ok (undo h (rs.take todo).reverse) := by
  intro todo
  induction todo with
  | zero => intro i h _; simp [backup_loop, undo]
  | succ n ih =>
    intro i h hlen
    have hn : n < rs.length := by omega
    have hidx : s.g_inode_count - 1 - i = n := by rw [hreg.count]; omega
    simp only [backup_loop, hidx, backup_step_registry s rs hreg n hn h]
    rw [ih (i + 1) _ (by omega)]
    have htake : rs.take (n + 1) = rs.take n ++ [rs.get ⟨n, hn⟩] := by
      rw [List.take_succ]
      simp [List.getElem?_eq_getElem hn]
    rw [htake, List.reverse_append]
    simp only [undo, List.reverse_cons, List.reverse_nil, List.nil_append,
      List.singleton_append, List.foldl_cons]

theorem backup_functions_registry (s : State) (rs : List Record) (hreg : Registry s rs) :
    ∃ s1, backup_functions s = .ok s1 ∧ s1.inodes = undo s.inodes rs.reverse ∧
      s1.g_inode_count = s.g_inode_count := by
  have hloop := backup_loop_registry s rs hreg rs.length 0 s.inodes (by simp)
  rw [List.take_length] at hloop
  rw [← hreg.count] at hloop
  simp only [backup_functions, hloop, hreg.inodes, hreg.fops, hreg.iops, hreg.parents,
    hreg.pfops, hreg.numbers, kfree, bind, Except.bind, pure, Except.pure]
  exact ⟨_, rfl, rfl, rfl⟩

theorem backup_functions_unallocated (s : State) (hun : Unallocated s) :
    ∃ s1, backup_functions s = .ok s1 ∧ s1.inodes = s.inodes ∧
      s1.g_inode_count = s.g_inode_count := by
  simp only [backup_functions, hun.count, backup_loop, hun.inodes, hun.fops, hun.iops,
    hun.parents, hun.pfops, hun.numbers, kfree, bind, Except.bind, pure, Except.pure]
  exact ⟨_, rfl, rfl, rfl⟩

theorem backup_after_run (cs : List Call) (h0 : Nat → inode) :
    ∃ s s1, run cs (State.init h0) = .ok s ∧ backup_functions s = .ok s1 ∧ s1.inodes = h0 := by
  obtain ⟨s, hrun, hin, hs⟩ := run_init cs h0
  rcases hs with ⟨hnil, hun⟩ | hreg
  · obtain ⟨s1, hb, hin1, _⟩ := backup_functions_unallocated s hun
    refine ⟨s, s1, hrun, hb, ?_⟩
    have := undo_saved cs h0
    rw [hnil] at this
    simp only [List.reverse_nil, undo, List.foldl_nil] at this
    rw [hin1, hin, this]
  · obtain ⟨s1, hb, hin1, _⟩ := backup_functions_registry s _ hreg
    refine ⟨s, s1, hrun, hb, ?_⟩
    rw [hin1, hin, undo_saved]


/-! ## The scan of `new_filldir` -/

theorem scan_bound_pos (count : Nat) (h1 : 1 ≤ count) (h2 : count < 2 ^ 31) :
    scan_bound count = count - 1 := by
  unfold scan_bound
  have h3 : ((count : Int) - 1) % 4294967296 = ((count - 1 : Nat) : Int) := by
    omega
  rw [h3]
  simp

theorem inode_scan_registry (rs : List Record) (ino : Nat) (hpos : 1 ≤ rs.length)
    (hlt : rs.length < 2 ^ 31) :
    ∀ (n i fuel : Nat), i + n = rs.length → n < fuel →
      ∃ m b, m ≤ n ∧
        inode_scan (.live (cells_of Record.ino rs)) (rs.length - 1) ino fuel i
          = ⟨List.range' i m, .ok b⟩ ∧
        (b = true ↔ ∃ (j : Nat) (hj : j < rs.length), i ≤ j ∧ (rs.get ⟨j, hj⟩).ino = ino) ∧
        (b = false → m = n) := by
  intro n
  induction n with
  | zero =>
    intro i fuel hi hfuel
    obtain ⟨f, rfl⟩ : ∃ f, fuel = f + 1 := ⟨fuel - 1, by omega⟩
    have hnot : ¬ i ≤ rs.length - 1 := by omega
    refine ⟨0, false, le_refl _, ?_, ?_, fun _ => rfl⟩
    · simp [inode_scan, hnot]
    · constructor
      · intro h; cases h
      · rintro ⟨j, hj, hij, _⟩; omega
  | succ n ih =>
    intro i fuel hi hfuel
    obtain ⟨f, rfl⟩ : ∃ f, fuel = f + 1 := ⟨fuel - 1, by omega⟩
    have hle : i ≤ rs.length - 1 := by omega
    have hilt : i < rs.length := by omega
    have hmod : (i + 1) % 4294967296 = i + 1 := Nat.mod_eq_of_lt (by omega)
    by_cases heq : (rs.get ⟨i, hilt⟩).ino = ino
    · have heq1 : rs[i].ino = ino := heq
      refine ⟨1, true, by omega, ?_, ?_, fun h => by cases h⟩
      · simp [inode_scan, hle, load_cells_of _ rs i hilt, heq1]
      · exact ⟨fun _ => ⟨i, hilt, le_refl _, heq⟩, fun _ => rfl⟩
    · obtain ⟨m, b, hm, hscan, hb, hfalse⟩ := ih (i + 1) f (by omega) (by omega)
      have heq1 : ¬ rs[i].ino = ino := heq
      refine ⟨m + 1, b, by omega, ?_, ?_, fun h => by rw [hfalse h]⟩
      · simp [inode_scan, hle, load_cells_of _ rs i hilt, heq1, hmod, hscan, List.range'_succ]
      · rw [hb]
        constructor
        · rintro ⟨j, hj, hij, hino⟩
          exact ⟨j, hj, by omega, hino⟩
        · rintro ⟨j, hj, hij, hino⟩
          have hne : j ≠ i := by
            rintro rfl
            exact heq hino
          exact ⟨j, hj, by omega, hino⟩

theorem registry_scan_spec (s : State) (rs : List Record) (hreg : Registry s rs) (ino : Nat)
    (hpos : 1 ≤ s.g_inode_count) (hlt : s.g_inode_count < 2 ^ 31) :
    ∃ m b, m ≤ s.g_inode_count ∧ registry_scan s ino = ⟨List.range m, .ok b⟩ ∧
      (b = true ↔ ∃ i, i < s.g_inode_count ∧ s.g_inode_numbers.load i = .ok ino) ∧
      (b = false → m = s.g_inode_count) := by
  have hc := hreg.count
  rw [hc] at hpos hlt
  obtain ⟨m, b, hm, hscan, hb, hfalse⟩ :=
    inode_scan_registry rs ino hpos hlt rs.length 0 (rs.length + 1 + 1) (by simp) (by omega)
  refine ⟨m, b, by omega, ?_, ?_, fun h => by rw [hfalse h, hc]⟩
  · unfold registry_scan
    rw [hreg.numbers, hc, scan_bound_pos _ hpos hlt]
    have hcap : (Block.live (cells_of Record.ino rs)).capacity = rs.length + 1 := by
      simp [Block.capacity, cells_of]
    rw [hcap, hscan, List.range_eq_range']
  · rw [hb, hc, hreg.numbers]
    constructor
    · rintro ⟨j, hj, _, hino⟩
      exact ⟨j, hj, by rw [load_cells_of _ rs j hj, hino]⟩
    · rintro ⟨j, hj, hload⟩
      rw [load_cells_of _ rs j hj] at hload
      exact ⟨j, hj, Nat.zero_le _, by injection hload⟩


/-! ## Facts about the saved records -/

theorem install_ino (h : Nat → inode) (t p q : Nat) :
    (install h t p q).i_ino = (h q).i_ino := by
  simp only [install, set_i_fop, set_i_op]
  split_ifs <;> rfl

theorem install_other (h : Nat → inode) (t p q : Nat) (ht : q ≠ t) (hp : q ≠ p) :
    install h t p q = h q := by
  simp [install, set_i_fop, set_i_op, ht, hp]

theorem heap_after_ino (cs : List Call) :
    ∀ (h : Nat → inode) (q : Nat), (heap_after cs h q).i_ino = (h q).i_ino := by
  induction cs with
  | nil => intro h q; rfl
  | cons c cs ih =>
    intro h q
    cases hres : c.resolve with
    | none => simpa only [heap_after, hres] using ih h q
    | some nd =>
      simp only [heap_after, hres]
      rw [ih, install_ino]

theorem heap_after_untouched (cs : List Call) :
    ∀ (h : Nat → inode) (q : Nat), q ∉ touched cs → heap_after cs h q = h q := by
  induction cs with
  | nil => intro h q _; rfl
  | cons c cs ih =>
    intro h q hq
    cases hres : c.resolve with
    | none =>
      simp only [touched, hres] at hq
      simpa only [heap_after, hres] using ih h q hq
    | some nd =>
      simp only [touched, hres, List.mem_cons, not_or] at hq
      simp only [heap_after, hres]
      rw [ih _ q hq.2.2, install_other h _ _ q hq.1 hq.2.1]

theorem saved_nil_heap (cs : List Call) :
    ∀ h : Nat → inode, saved cs h = [] → heap_after cs h = h := by
  induction cs with
  | nil => intro h _; rfl
  | cons c cs ih =>
    intro h hnil
    cases hres : c.resolve with
    | none =>
      simp only [saved, hres] at hnil
      simpa only [heap_after, hres] using ih h hnil
    | some nd => simp [saved, hres] at hnil

theorem heap_after_append (pre post : List Call) :
    ∀ h : Nat → inode, heap_after (pre ++ post) h = heap_after post (heap_after pre h) := by
  induction pre with
  | nil => intro h; rfl
  | cons c cs ih =>
    intro h
    cases hres : c.resolve with
    | none =>
      show heap_after (c :: (cs ++ post)) h = _
      simp only [heap_after, hres, ih]
    | some nd =>
      show heap_after (c :: (cs ++ post)) h = _
      simp only [heap_after, hres, ih]

theorem saved_append (pre post : List Call) :
    ∀ h : Nat → inode,
      saved (pre ++ post) h = saved pre h ++ saved post (heap_after pre h) := by
  induction pre with
  | nil => intro h; rfl
  | cons c cs ih =>
    intro h
    cases hres : c.resolve with
    | none =>
      show saved (c :: (cs ++ post)) h = _
      simp only [saved, heap_after, hres, ih]
    | some nd =>
      show saved (c :: (cs ++ post)) h = _
      simp only [saved, heap_after, hres, ih, List.cons_append]

theorem saved_mem (cs : List Call) :
    ∀ (h : Nat → inode) (r : Record), r ∈ saved cs h →
      ∃ c ∈ cs, ∃ nd, c.resolve = some nd ∧ r.target = c.target nd ∧
        r.ino = (h (c.target nd)).i_ino := by
  induction cs with
  | nil => intro h r hr; simp [saved] at hr
  | cons c cs ih =>
    intro h r hr
    cases hres : c.resolve with
    | none =>
      simp only [saved, hres] at hr
      obtain ⟨c1, hc1, nd, h1, h2, h3⟩ := ih h r hr
      exact ⟨c1, List.mem_cons_of_mem _ hc1, nd, h1, h2, h3⟩
    | some nd =>
      simp only [saved, hres, List.mem_cons] at hr
      rcases hr with rfl | hr
      · exact ⟨c, List.mem_cons_self _ _, nd, hres, rfl, rfl⟩
      · obtain ⟨c1, hc1, nd1, h1, h2, h3⟩ := ih _ r hr
        refine ⟨c1, List.mem_cons_of_mem _ hc1, nd1, h1, h2, ?_⟩
        rw [h3, install_ino]

theorem mem_saved (cs : List Call) :
    ∀ (h : Nat → inode) (c : Call) (nd : Nat), c ∈ cs → c.resolve = some nd →
      ∃ r ∈ saved cs h, r.ino = (h (c.target nd)).i_ino := by
  induction cs with
  | nil => intro h c nd hc; simp at hc
  | cons c0 cs ih =>
    intro h c nd hc hres
    rcases List.mem_cons.mp hc with rfl | hc
    · refine ⟨capture h (c.target nd) (c.parent nd), ?_, rfl⟩
      simp [saved, hres]
    · cases hres0 : c0.resolve with
      | none =>
        obtain ⟨r, hr, hino⟩ := ih h c nd hc hres
        exact ⟨r, by simpa only [saved, hres0] using hr, hino⟩
      | some nd0 =>
        obtain ⟨r, hr, hino⟩ := ih (install h (c0.target nd0) (c0.parent nd0)) c nd hc hres
        refine ⟨r, ?_, ?_⟩
        · simp only [saved, hres0, List.mem_cons]
          exact Or.inr hr
        · rw [hino, install_ino]

/-- After at least one resolved call the arrays hold the saved records. -/
theorem run_registry (cs : List Call) (h0 : Nat → inode) (s : State)
    (hrun : run cs (State.init h0) = .ok s) (hpos : 1 ≤ s.g_inode_count) :
    Registry s (saved cs h0) ∧ s.inodes = heap_after cs h0 := by
  obtain ⟨s1, hrun1, hin, hs⟩ := run_init cs h0
  rw [hrun] at hrun1
  injection hrun1 with hss
  subst hss
  rcases hs with ⟨_, hun⟩ | hreg
  · have := hun.count
    omega
  · exact ⟨hreg, hin⟩

/-- A state in which some inode carries `new_parent_fop`, reached from a heap in
which none does, has at least one record. -/
theorem hooked_count_pos (cs : List Call) (h0 : Nat → inode) (s : State)
    (hrun : run cs (State.init h0) = .ok s)
    (hclean : ∀ p, (h0 p).i_fop ≠ .new_parent_fop)
    (hooked : ∃ p, (s.inodes p).i_fop = .new_parent_fop) : 1 ≤ s.g_inode_count := by
  obtain ⟨s1, hrun1, hin, hs⟩ := run_init cs h0
  rw [hrun] at hrun1
  injection hrun1 with hss
  subst hss
  rcases hs with ⟨hnil, _⟩ | hreg
  · obtain ⟨p, hp⟩ := hooked
    rw [hin, saved_nil_heap cs h0 hnil] at hp
    exact absurd hp (hclean p)
  · rw [hreg.count]
    cases hsv : saved cs h0 with
    | nil =>
      obtain ⟨p, hp⟩ := hooked
      rw [hin, saved_nil_heap cs h0 hsv] at hp
      exact absurd hp (hclean p)
    | cons r rs => simp


/-! ## The claims -/

/-- C10: in every state reached by `hook_functions` calls from a freshly loaded
module (no inode carries `new_parent_fop` yet) in which some inode has
`new_parent_fop` installed, `g_inode_count >= 1` (it is an `int`, so below
`2^31`); hence the unsigned bound `g_inode_count - 1` of the scan does not wrap,
`g_inode_numbers` has `g_inode_count + 1` cells, every index below
`g_inode_count` holds the inode number written by one of the registrations, and
the scan reads exactly the indices `0 .. m - 1` for some `m <= g_inode_count`,
with `m = g_inode_count` when nothing matches, and ends without a fault. -/
theorem scan_stays_in_registry (cs : List Call) (h0 : Nat → inode) (s : State)
    (hrun : run cs (State.init h0) = .ok s)
    (hclean : ∀ p, (h0 p).i_fop ≠ .new_parent_fop)
    (hooked : ∃ p, (s.inodes p).i_fop = .new_parent_fop)
    (hint : s.g_inode_count < 2 ^ 31) :
    1 ≤ s.g_inode_count ∧
    scan_bound s.g_inode_count = s.g_inode_count - 1 ∧
    s.g_inode_numbers.capacity = s.g_inode_count + 1 ∧
    (∀ i, i < s.g_inode_count → ∃ v, s.g_inode_numbers.load i = .ok v ∧
      ∃ c ∈ cs, ∃ nd, c.resolve = some nd ∧ v = (h0 (c.target nd)).i_ino) ∧
    (∀ ino, ∃ m b, m ≤ s.g_inode_count ∧ registry_scan s ino = ⟨List.range m, .ok b⟩ ∧
      (b = true ↔ ∃ i, i < s.g_inode_count ∧ s.g_inode_numbers.load i = .ok ino) ∧
      (b = false → m = s.g_inode_count)) := by
  have hpos := hooked_count_pos cs h0 s hrun hclean hooked
  obtain ⟨hreg, _⟩ := run_registry cs h0 s hrun hpos
  refine ⟨hpos, scan_bound_pos _ hpos hint, ?_, ?_, ?_⟩
  · rw [hreg.numbers, hreg.count]
    simp [Block.capacity, cells_of]
  · intro i hi
    have hi2 : i < (saved cs h0).length := by rw [← hreg.count]; exact hi
    refine ⟨_, by rw [hreg.numbers]; exact load_cells_of _ _ i hi2, ?_⟩
    obtain ⟨c, hc, nd, hres, _, hino⟩ :=
      saved_mem cs h0 _ (List.get_mem (saved cs h0) i hi2)
    exact ⟨c, hc, nd, hres, hino⟩
  · intro ino
    exact registry_scan_spec s _ hreg ino hpos hint

/-- C10, instance: after registering `/root/secret.txt` the directory inode 100
carries `new_parent_fop`; the count is 1, the bound of the scan is 0 and the
array has 2 cells. -/
theorem scan_stays_in_registry_witness :
    (hidden_secret.inodes 100).i_fop = .new_parent_fop ∧
    1 ≤ hidden_secret.g_inode_count ∧
    scan_bound hidden_secret.g_inode_count = hidden_secret.g_inode_count - 1 ∧
    hidden_secret.g_inode_numbers.capacity = hidden_secret.g_inode_count + 1 :=
  have h := scan_stays_in_registry [⟨rootfs, "/root/secret.txt"⟩] heap0 hidden_secret rfl
    (fun p => by simp [heap0]) ⟨100, by decide⟩ (by decide)
  ⟨by decide, h.1, h.2.1, h.2.2.1⟩

/-- C1: in a state reached by registrations in which the enumerated directory
carries `new_parent_fop`, with the globals set by `parent_readdir`, `new_filldir`
returns 0 without calling the caller's callback when `d_lookup` resolves the
name in the enumerated directory and the inode number of the resolved inode is
one of `g_inode_numbers[0 .. g_inode_count - 1]`; in every other case (also when
the lookup fails) it calls the callback once with the six arguments unchanged
and returns its result.  After a single registration the withheld entries are
exactly those that resolve to the inode number of the registered target. -/
theorem new_filldir_withholds_registered (cs : List Call) (h0 : Nat → inode) (s0 : State)
    (k : Kernel) (dir : Nat) (cb : List filldir_args → filldir_args → Int)
    (a : filldir_args) (hist : List filldir_args) (fuel : Nat)
    (hrun : run cs (State.init h0) = .ok s0)
    (hclean : ∀ p, (h0 p).i_fop ≠ .new_parent_fop)
    (hooked : (s0.inodes (k.d_inode dir)).i_fop = .new_parent_fop)
    (hint : s0.g_inode_count < 2 ^ 31) :
    (resolves_to_registered k (s0.enumerating dir cb) a →
      new_filldir k (fun f b h => call_filldir k (fuel + 1) f b (s0.enumerating dir cb) h)
        a (s0.enumerating dir cb) hist = .ok (0, hist)) ∧
    (¬ resolves_to_registered k (s0.enumerating dir cb) a →
      new_filldir k (fun f b h => call_filldir k (fuel + 1) f b (s0.enumerating dir cb) h)
        a (s0.enumerating dir cb) hist = .ok (cb hist a, hist ++ [a])) ∧
    (∀ c nd, cs = [c] → c.resolve = some nd →
      (resolves_to_registered k (s0.enumerating dir cb) a ↔
        ∃ pDentry, k.d_lookup dir a.name a.namelen = some pDentry ∧
          (s0.inodes (k.d_inode pDentry)).i_ino = (h0 (c.target nd)).i_ino)) := by
  have hpos := hooked_count_pos cs h0 s0 hrun hclean ⟨_, hooked⟩
  obtain ⟨hreg, hin⟩ := run_registry cs h0 s0 hrun hpos
  have hscan : ∀ ino, ∃ m b, m ≤ s0.g_inode_count ∧
      registry_scan (s0.enumerating dir cb) ino = ⟨List.range m, .ok b⟩ ∧
      (b = true ↔ ∃ i, i < s0.g_inode_count ∧ s0.g_inode_numbers.load i = .ok ino) ∧
      (b = false → m = s0.g_inode_count) := fun ino => registry_scan_spec s0 _ hreg ino hpos hint
  have hiff : resolves_to_registered k (s0.enumerating dir cb) a ↔
      ∃ pDentry, k.d_lookup dir a.name a.namelen = some pDentry ∧
        ∃ i, i < s0.g_inode_count ∧
          s0.g_inode_numbers.load i = .ok (s0.inodes (k.d_inode pDentry)).i_ino := by
    constructor
    · rintro ⟨parent, pDentry, hp, hl, hi⟩
      have : dir = parent := by
        simp only [State.enumerating] at hp
        injection hp
      subst this
      exact ⟨pDentry, hl, hi⟩
    · rintro ⟨pDentry, hl, hi⟩
      exact ⟨dir, pDentry, rfl, hl, hi⟩
  refine ⟨?_, ?_, ?_⟩
  · intro hres
    obtain ⟨pDentry, hl, hi⟩ := hiff.mp hres
    obtain ⟨m, b, _, hs, hb, _⟩ := hscan (s0.inodes (k.d_inode pDentry)).i_ino
    have hbt : b = true := hb.mpr hi
    subst hbt
    have hs2 : registry_scan (s0.enumerating dir cb)
        ((s0.enumerating dir cb).inodes (k.d_inode pDentry)).i_ino
          = ⟨List.range m, .ok true⟩ := hs
    simp only [new_filldir, State.enumerating] at hs2 ⊢
    simp only [hl, hs2]
  · intro hres
    cases hl : k.d_lookup dir a.name a.namelen with
    | none =>
      simp only [new_filldir, State.enumerating, hl, call_filldir]
    | some pDentry =>
      obtain ⟨m, b, _, hs, hb, _⟩ := hscan (s0.inodes (k.d_inode pDentry)).i_ino
      have hbf : b = false := by
        cases b with
        | false => rfl
        | true => exact absurd (hiff.mpr ⟨pDentry, hl, hb.mp rfl⟩) hres
      subst hbf
      have hs2 : registry_scan (s0.enumerating dir cb)
          ((s0.enumerating dir cb).inodes (k.d_inode pDentry)).i_ino
            = ⟨List.range m, .ok false⟩ := hs
      simp only [new_filldir, State.enumerating] at hs2 ⊢
      simp only [hl, hs2, call_filldir]
  · intro c nd hcs hres
    subst hcs
    have hsv : saved [c] h0 = [capture h0 (c.target nd) (c.parent nd)] := by
      simp [saved, hres]
    have hcount : s0.g_inode_count = 1 := by rw [hreg.count, hsv]; rfl
    rw [hiff]
    constructor
    · rintro ⟨pDentry, hl, i, hi, hload⟩
      refine ⟨pDentry, hl, ?_⟩
      have hi0 : i = 0 := by omega
      subst hi0
      rw [hreg.numbers, hsv] at hload
      simp only [Block.load, cells_of, capture, List.map_cons, List.map_nil,
        List.singleton_append, List.getElem?_cons_zero] at hload
      injection hload with hload
      exact hload.symm
    · rintro ⟨pDentry, hl, hino⟩
      refine ⟨pDentry, hl, 0, by omega, ?_⟩
      rw [hreg.numbers, hsv, hino]
      simp [Block.load, cells_of, capture]


/-- C1, instance: with `/root/secret.txt` registered, the entry `secret.txt` of
`/root` is withheld. -/
theorem new_filldir_withholds_registered_witness :
    new_filldir rootfs
      (fun f b h => call_filldir rootfs 1 f b (hidden_secret.enumerating 1 accept_all) h)
      ⟨0, "secret.txt", 10, 1, 7001, 8⟩ (hidden_secret.enumerating 1 accept_all) []
      = .ok (0, []) :=
  (new_filldir_withholds_registered [⟨rootfs, "/root/secret.txt"⟩] heap0 hidden_secret rootfs 1
    accept_all ⟨0, "secret.txt", 10, 1, 7001, 8⟩ [] 0 rfl (fun p => by simp [heap0])
    (by decide) (by decide)).1 ⟨1, 2, rfl, by decide, 0, by decide, by decide⟩

theorem load_cells_at {α : Type} (f : Record → α) (l1 l2 : List Record) (r : Record) :
    (Block.live (cells_of f (l1 ++ r :: l2))).load l1.length = .ok (f r) := by
  have h : l1.length < (l1 ++ r :: l2).length := by simp
  rw [load_cells_of f _ _ h]
  have hget : (l1 ++ r :: l2).get ⟨l1.length, h⟩ = r := by
    simp [List.getElem_append_right]
  rw [hget]

theorem saved_length_resolved (cs : List Call) :
    ∀ h : Nat → inode, (∀ c ∈ cs, c.resolve ≠ none) → (saved cs h).length = cs.length := by
  induction cs with
  | nil => intro h _; rfl
  | cons c cs ih =>
    intro h hall
    cases hres : c.resolve with
    | none => exact absurd hres (hall c (List.mem_cons_self _ _))
    | some nd =>
      simp only [saved, hres, List.length_cons]
      rw [ih _ (fun c1 hc1 => hall c1 (List.mem_cons_of_mem _ hc1))]

/-- C5: for every sequence of `hook_functions` calls on a freshly loaded module
(no inode carries a stub table yet), also with the same target registered
several times and with targets sharing a parent, the calls and the following
`backup_functions` return, and afterwards the `i_fop` and `i_op` of every inode
are the ones of the initial heap, hence no stub table; the initial value is the
value the inode has after every prefix of the calls that does not touch it,
that is, the value before the first registration that touches it. -/
theorem backup_restores_first_values (cs : List Call) (h0 : Nat → inode)
    (hclean : ∀ p, (h0 p).i_fop ≠ .new_fop ∧ (h0 p).i_fop ≠ .new_parent_fop ∧
      (h0 p).i_op ≠ .new_iop) :
    ∃ s s1, run cs (State.init h0) = .ok s ∧ backup_functions s = .ok s1 ∧
      (∀ p, (s1.inodes p).i_fop = (h0 p).i_fop ∧ (s1.inodes p).i_op = (h0 p).i_op) ∧
      (∀ p, (s1.inodes p).i_fop ≠ .new_fop ∧ (s1.inodes p).i_fop ≠ .new_parent_fop ∧
        (s1.inodes p).i_op ≠ .new_iop) ∧
      (∀ pre post p, cs = pre ++ post → p ∉ touched pre →
        ∃ sp, run pre (State.init h0) = .ok sp ∧ sp.inodes p = h0 p) := by
  obtain ⟨s, s1, hrun, hb, hin⟩ := backup_after_run cs h0
  refine ⟨s, s1, hrun, hb, ?_, ?_, ?_⟩
  · intro p
    rw [hin]
    exact ⟨rfl, rfl⟩
  · intro p
    rw [hin]
    exact hclean p
  · intro pre post p _ hp
    obtain ⟨sp, hsp, hinp, _⟩ := run_init pre h0
    exact ⟨sp, hsp, by rw [hinp, heap_after_untouched pre h0 p hp]⟩

/-- C5, instance: `/root/secret.txt` registered twice and `/root/notes.txt`
registered under the same parent. -/
theorem backup_restores_first_values_witness :
    ∃ s s1, run [⟨rootfs, "/root/secret.txt"⟩, ⟨rootfs, "/root/secret.txt"⟩,
        ⟨rootfs, "/root/notes.txt"⟩] (State.init heap0) = .ok s ∧
      backup_functions s = .ok s1 ∧
      (∀ p, (s1.inodes p).i_fop = .kernel 500 ∧ (s1.inodes p).i_op = .kernel 600) :=
  (backup_restores_first_values [⟨rootfs, "/root/secret.txt"⟩, ⟨rootfs, "/root/secret.txt"⟩,
      ⟨rootfs, "/root/notes.txt"⟩] heap0 (fun p => by simp [heap0])).imp
    fun _ hs => hs.imp fun _ h => ⟨h.1, h.2.1, h.2.2.1⟩

/-- C3, as stated, fails for two targets with distinct inode numbers (7001 and
7002) that share the parent inode 100: the value captured for the parent
immediately before the second registration is `new_parent_fop`, and
`backup_functions` leaves the parent with the kernel table 500 instead. -/
theorem shared_parent_not_restored_to_captured :
    ∃ s s1, run [⟨rootfs, "/root/secret.txt"⟩, ⟨rootfs, "/root/notes.txt"⟩]
        (State.init heap0) = .ok s ∧
      backup_functions s = .ok s1 ∧
      s.g_inode_numbers.load 0 = .ok 7001 ∧ s.g_inode_numbers.load 1 = .ok 7002 ∧
      s.g_old_parent_inode_pointer.load 1 = .ok 100 ∧
      s.g_old_parent_fop_pointer.load 1 = .ok .new_parent_fop ∧
      (s1.inodes 100).i_fop = .kernel 500 ∧
      (s1.inodes 100).i_fop ≠ .new_parent_fop :=
  ⟨_, _, rfl, rfl, by decide, by decide, by decide, by decide, by decide, by decide⟩

/-- C3, amended: for any sequence of successful registrations, the calls and the
following `backup_functions` return, and afterwards every inode has the `i_fop`
and `i_op` of the initial heap; for a registration whose target no earlier
registration touched (as target or as parent), these are exactly the values
saved for the target at its index, and for a registration whose parent no
earlier registration touched, the restored `i_fop` of the parent is exactly the
value saved for the parent at its index. -/
theorem backup_restores_captured_when_untouched (cs : List Call) (h0 : Nat → inode)
    (hall : ∀ c ∈ cs, c.resolve ≠ none) :
    ∃ s s1, run cs (State.init h0) = .ok s ∧ backup_functions s = .ok s1 ∧
      (∀ p, (s1.inodes p).i_fop = (h0 p).i_fop ∧ (s1.inodes p).i_op = (h0 p).i_op) ∧
      (∀ pre c post nd, cs = pre ++ c :: post → c.resolve = some nd →
        s.g_old_inode_pointer.load pre.length = .ok (c.target nd) ∧
        s.g_old_parent_inode_pointer.load pre.length = .ok (c.parent nd) ∧
        (c.target nd ∉ touched pre →
          s.g_old_fop_pointer.load pre.length = .ok (s1.inodes (c.target nd)).i_fop ∧
          s.g_old_iop_pointer.load pre.length = .ok (s1.inodes (c.target nd)).i_op) ∧
        (c.parent nd ∉ touched pre →
          s.g_old_parent_fop_pointer.load pre.length
            = .ok (s1.inodes (c.parent nd)).i_fop)) := by
  obtain ⟨s, s1, hrun, hb, hin⟩ := backup_after_run cs h0
  refine ⟨s, s1, hrun, hb, ?_, ?_⟩
  · intro p
    rw [hin]
    exact ⟨rfl, rfl⟩
  · intro pre c post nd hcs hres
    have hsv : saved cs h0 = saved pre h0 ++
        capture (heap_after pre h0) (c.target nd) (c.parent nd) ::
          saved post (install (heap_after pre h0) (c.target nd) (c.parent nd)) := by
      rw [hcs, saved_append]
      simp only [saved, hres]
    have hlen : (saved pre h0).length = pre.length :=
      saved_length_resolved pre h0 (fun c1 hc1 => hall c1 (by rw [hcs]; simp [hc1]))
    have hreg : Registry s (saved cs h0) := by
      obtain ⟨s2, hrun2, _, hs⟩ := run_init cs h0
      rw [hrun] at hrun2
      injection hrun2 with hss
      subst hss
      rcases hs with ⟨hnil, _⟩ | hreg
      · rw [hsv] at hnil
        simp at hnil
      · exact hreg
    rw [hreg.inodes, hreg.parents, hreg.fops, hreg.iops, hreg.pfops, hsv, ← hlen]
    simp only [load_cells_at, hin]
    refine ⟨rfl, rfl, ?_, ?_⟩
    · intro ht
      simp only [capture, heap_after_untouched pre h0 _ ht, and_self]
    · intro hp
      simp only [capture, heap_after_untouched pre h0 _ hp]

/-- C3, instance: two targets under two different parent directories. -/
theorem backup_restores_captured_when_untouched_witness :
    ∃ s s1, run [⟨twodirs, "/tmp/t"⟩, ⟨twodirs, "/srv/u"⟩] (State.init heap0) = .ok s ∧
      backup_functions s = .ok s1 ∧
      (∀ p, (s1.inodes p).i_fop = (heap0 p).i_fop ∧ (s1.inodes p).i_op = (heap0 p).i_op) :=
  (backup_restores_captured_when_untouched [⟨twodirs, "/tmp/t"⟩, ⟨twodirs, "/srv/u"⟩] heap0
    (fun c hc => by
      simp only [List.mem_cons, List.mem_singleton, List.not_mem_nil, or_false] at hc
      rcases hc with rfl | rfl <;> decide)).imp
    fun _ hs => hs.imp fun _ h => ⟨h.1, h.2.1, h.2.2.1⟩


/-! ### Duplicate registrations -/

theorem load_cells_earlier {α : Type} (f : Record → α) (rs : List Record) (r : Record) (i : Nat)
    (hi : i < rs.length) :
    (Block.live (cells_of f (rs ++ [r]))).load i = (Block.live (cells_of f rs)).load i := by
  have h2 : i < (rs ++ [r]).length := by simp; omega
  rw [load_cells_of f _ i h2, load_cells_of f _ i hi]
  have hget : (rs ++ [r]).get ⟨i, h2⟩ = rs.get ⟨i, hi⟩ := by
    simp [List.getElem_append_left, hi]
  rw [hget]

/-- C4, as stated, fails: with `/root/secret.txt` registered (inode number 7001
at index 0), a second `hook_functions` call for the same path returns 0, not the
failure result, counts a second record and saves the stub `new_fop` as the
table of the target. -/
theorem duplicate_registration_accepted :
    ∃ s1, hidden_secret.g_inode_count = 1 ∧
      hidden_secret.g_inode_numbers.load 0 = .ok 7001 ∧
      (hidden_secret.inodes 101).i_ino = 7001 ∧
      hook_functions rootfs "/root/secret.txt" hidden_secret = .ok (0, s1) ∧
      s1.g_inode_count = 2 ∧
      s1.g_inode_numbers.load 1 = .ok 7001 ∧
      s1.g_old_fop_pointer.load 1 = .ok .new_fop :=
  ⟨_, by decide, by decide, by decide, rfl, by decide, by decide, by decide⟩

/-- C4, amended: in a state reached by registrations, a `hook_functions` call
whose two path lookups succeed for a target whose inode number is already
recorded returns 0, increments `g_inode_count`, writes a further record at the
old `g_inode_count` holding the target, the parent and the tables they have at
that moment, leaves every earlier entry of the six arrays as it was, and
installs the stub tables again. -/
theorem duplicate_registration_appends (cs : List Call) (h0 : Nat → inode) (s : State)
    (c : Call) (nd : Nat)
    (hrun : run cs (State.init h0) = .ok s) (hres : c.resolve = some nd)
    (hdup : ∃ i, i < s.g_inode_count ∧
      s.g_inode_numbers.load i = .ok (s.inodes (c.target nd)).i_ino) :
    ∃ s1, hook_functions c.k c.path s = .ok (0, s1) ∧
      s1.g_inode_count = s.g_inode_count + 1 ∧
      s1.g_inode_numbers.load s.g_inode_count = .ok (s.inodes (c.target nd)).i_ino ∧
      s1.g_old_inode_pointer.load s.g_inode_count = .ok (c.target nd) ∧
      s1.g_old_fop_pointer.load s.g_inode_count = .ok (s.inodes (c.target nd)).i_fop ∧
      s1.g_old_iop_pointer.load s.g_inode_count = .ok (s.inodes (c.target nd)).i_op ∧
      s1.g_old_parent_inode_pointer.load s.g_inode_count = .ok (c.parent nd) ∧
      s1.g_old_parent_fop_pointer.load s.g_inode_count = .ok (s.inodes (c.parent nd)).i_fop ∧
      (∀ i, i < s.g_inode_count →
        s1.g_inode_numbers.load i = s.g_inode_numbers.load i ∧
        s1.g_old_inode_pointer.load i = s.g_old_inode_pointer.load i ∧
        s1.g_old_fop_pointer.load i = s.g_old_fop_pointer.load i ∧
        s1.g_old_iop_pointer.load i = s.g_old_iop_pointer.load i ∧
        s1.g_old_parent_inode_pointer.load i = s.g_old_parent_inode_pointer.load i ∧
        s1.g_old_parent_fop_pointer.load i = s.g_old_parent_fop_pointer.load i) ∧
      s1.inodes = install s.inodes (c.target nd) (c.parent nd) := by
  obtain ⟨i0, hi0, _⟩ := hdup
  have hpos : 1 ≤ s.g_inode_count := by omega
  obtain ⟨hreg, _⟩ := run_registry cs h0 s hrun hpos
  obtain ⟨s1, hhook, hreg1, hin1, _⟩ :=
    hook_functions_resolved c s (saved cs h0) nd hres (Or.inr hreg)
  have hat : ∀ {α : Type} (f : Record → α),
      (Block.live (cells_of f (saved cs h0 ++
        [capture s.inodes (c.target nd) (c.parent nd)]))).load s.g_inode_count
        = .ok (f (capture s.inodes (c.target nd) (c.parent nd))) := by
    intro α f
    rw [hreg.count]
    exact load_cells_at f _ [] _
  refine ⟨s1, hhook, ?_, ?_, ?_, ?_, ?_, ?_, ?_, ?_, hin1⟩
  · rw [hreg1.count, hreg.count]; simp
  · rw [hreg1.numbers]; exact hat Record.ino
  · rw [hreg1.inodes]; exact hat Record.target
  · rw [hreg1.fops]; exact hat Record.fop
  · rw [hreg1.iops]; exact hat Record.iop
  · rw [hreg1.parents]; exact hat Record.parent
  · rw [hreg1.pfops]; exact hat Record.pfop
  · intro i hi
    rw [hreg.count] at hi
    rw [hreg1.numbers, hreg1.inodes, hreg1.fops, hreg1.iops, hreg1.parents, hreg1.pfops,
      hreg.numbers, hreg.inodes, hreg.fops, hreg.iops, hreg.parents, hreg.pfops]
    exact ⟨load_cells_earlier _ _ _ i hi, load_cells_earlier _ _ _ i hi,
      load_cells_earlier _ _ _ i hi, load_cells_earlier _ _ _ i hi,
      load_cells_earlier _ _ _ i hi, load_cells_earlier _ _ _ i hi⟩

/-- C4, instance: `/root/secret.txt` registered a second time. -/
theorem duplicate_registration_appends_witness :
    ∃ s1, hook_functions rootfs "/root/secret.txt" hidden_secret = .ok (0, s1) ∧
      s1.g_inode_count = hidden_secret.g_inode_count + 1 :=
  (duplicate_registration_appends [⟨rootfs, "/root/secret.txt"⟩] heap0 hidden_secret
    ⟨rootfs, "/root/secret.txt"⟩ 2 rfl (by decide) ⟨0, by decide, by decide⟩).imp
    fun _ h => ⟨h.1, h.2.1⟩


/-! ### Filtering does not look at the parent -/

theorem new_filldir_hit (k : Kernel) (s0 : State) (rs : List Record) (dir : Nat)
    (cb : List filldir_args → filldir_args → Int) (a : filldir_args)
    (hist : List filldir_args) (fuel pDentry : Nat)
    (hreg : Registry s0 rs) (hpos : 1 ≤ s0.g_inode_count) (hint : s0.g_inode_count < 2 ^ 31)
    (hl : k.d_lookup dir a.name a.namelen = some pDentry)
    (hi : ∃ i, i < s0.g_inode_count ∧
      s0.g_inode_numbers.load i = .ok (s0.inodes (k.d_inode pDentry)).i_ino) :
    new_filldir k (fun f b h => call_filldir k (fuel + 1) f b (s0.enumerating dir cb) h)
      a (s0.enumerating dir cb) hist = .ok (0, hist) := by
  obtain ⟨m, b, _, hs, hb, _⟩ :=
    registry_scan_spec s0 rs hreg (s0.inodes (k.d_inode pDentry)).i_ino hpos hint
  have hbt : b = true := hb.mpr hi
  subst hbt
  have hs2 : registry_scan (s0.enumerating dir cb)
      ((s0.enumerating dir cb).inodes (k.d_inode pDentry)).i_ino
        = ⟨List.range m, .ok true⟩ := hs
  simp only [new_filldir, State.enumerating] at hs2 ⊢
  simp only [hl, hs2]

/-- C6, as stated, fails: with `/tmp/t` (inode number 7003) registered under
`/tmp` (inode 102) and `/srv/u` under `/srv` (inode 101), the entry `link` of
`/srv`, which resolves to inode number 7003, is withheld although no record
with that number was registered under `/srv`; the enumeration of `/srv` hands
nothing to the caller. -/
theorem entry_of_other_parent_withheld :
    hidden_two.g_inode_count = 2 ∧
    hidden_two.g_inode_numbers.load 0 = .ok 7003 ∧
    hidden_two.g_old_parent_inode_pointer.load 0 = .ok 102 ∧
    hidden_two.g_inode_numbers.load 1 = .ok 7004 ∧
    hidden_two.g_old_parent_inode_pointer.load 1 = .ok 101 ∧
    twodirs.d_inode 2 = 101 ∧
    twodirs.d_lookup 2 "link" 4 = some 6 ∧
    (hidden_two.inodes (twodirs.d_inode 6)).i_ino = 7003 ∧
    new_filldir twodirs
      (fun f b h => call_filldir twodirs 1 f b (hidden_two.enumerating 2 accept_all) h)
      ⟨0, "link", 4, 2, 7003, 8⟩ (hidden_two.enumerating 2 accept_all) [] = .ok (0, []) ∧
    seen (vfs_readdir twodirs 4 2 0 accept_all hidden_two) = .ok (0, []) := by
  refine ⟨by decide, by decide, by decide, by decide, by decide, by decide, by decide,
    by decide, by decide, by decide⟩

theorem new_filldir_miss (k : Kernel) (s0 : State) (rs : List Record) (dir : Nat)
    (cb : List filldir_args → filldir_args → Int) (a : filldir_args)
    (hist : List filldir_args) (fuel : Nat)
    (hreg : Registry s0 rs) (hpos : 1 ≤ s0.g_inode_count) (hint : s0.g_inode_count < 2 ^ 31)
    (hno : ∀ pDentry, k.d_lookup dir a.name a.namelen = some pDentry →
      ¬ ∃ i, i < s0.g_inode_count ∧
        s0.g_inode_numbers.load i = .ok (s0.inodes (k.d_inode pDentry)).i_ino) :
    new_filldir k (fun f b h => call_filldir k (fuel + 1) f b (s0.enumerating dir cb) h)
      a (s0.enumerating dir cb) hist = .ok (cb hist a, hist ++ [a]) := by
  cases hl : k.d_lookup dir a.name a.namelen with
  | none =>
    simp only [new_filldir, State.enumerating, hl, call_filldir]
  | some pDentry =>
    obtain ⟨m, b, _, hs, hb, _⟩ :=
      registry_scan_spec s0 rs hreg (s0.inodes (k.d_inode pDentry)).i_ino hpos hint
    have hbf : b = false := by
      cases b with
      | false => rfl
      | true => exact absurd (hb.mp rfl) (hno pDentry hl)
    subst hbf
    have hs2 : registry_scan (s0.enumerating dir cb)
        ((s0.enumerating dir cb).inodes (k.d_inode pDentry)).i_ino
          = ⟨List.range m, .ok false⟩ := hs
    simp only [new_filldir, State.enumerating] at hs2 ⊢
    simp only [hl, hs2, call_filldir]

/-- C6, amended: during an enumeration of a hooked directory (one that carries
`new_parent_fop`, so that its entries pass through `new_filldir`), in a state
reached by registrations, `new_filldir` withholds an entry as soon as `d_lookup`
resolves it to an inode whose number equals the number of a registered target,
whatever parent that target was registered under (the parent of the
registration does not occur in the condition); and it forwards the entry to the
caller's callback when the name does not resolve or the resolved inode number
equals the number of no registered target. -/
theorem new_filldir_withholds_any_parent (cs : List Call) (h0 : Nat → inode) (s0 : State)
    (k : Kernel) (dir : Nat) (cb : List filldir_args → filldir_args → Int)
    (a : filldir_args) (hist : List filldir_args) (fuel : Nat)
    (hrun : run cs (State.init h0) = .ok s0)
    (hclean : ∀ p, (h0 p).i_fop ≠ .new_parent_fop)
    (hooked : (s0.inodes (k.d_inode dir)).i_fop = .new_parent_fop)
    (hint : s0.g_inode_count < 2 ^ 31) :
    (∀ (c : Call) (nd pDentry : Nat), c ∈ cs → c.resolve = some nd →
      k.d_lookup dir a.name a.namelen = some pDentry →
      (s0.inodes (k.d_inode pDentry)).i_ino = (h0 (c.target nd)).i_ino →
      new_filldir k (fun f b h => call_filldir k (fuel + 1) f b (s0.enumerating dir cb) h)
        a (s0.enumerating dir cb) hist = .ok (0, hist)) ∧
    ((∀ pDentry, k.d_lookup dir a.name a.namelen = some pDentry →
        ∀ c ∈ cs, ∀ nd, c.resolve = some nd →
          (s0.inodes (k.d_inode pDentry)).i_ino ≠ (h0 (c.target nd)).i_ino) →
      new_filldir k (fun f b h => call_filldir k (fuel + 1) f b (s0.enumerating dir cb) h)
        a (s0.enumerating dir cb) hist = .ok (cb hist a, hist ++ [a])) := by
  have hpos := hooked_count_pos cs h0 s0 hrun hclean ⟨_, hooked⟩
  obtain ⟨hreg, _⟩ := run_registry cs h0 s0 hrun hpos
  constructor
  · intro c nd pDentry hc hres hl hino
    obtain ⟨r, hr, hrino⟩ := mem_saved cs h0 c nd hc hres
    obtain ⟨⟨i, hi⟩, hget⟩ := List.mem_iff_get.mp hr
    refine new_filldir_hit k s0 _ dir cb a hist fuel pDentry hreg hpos hint hl
      ⟨i, by rw [hreg.count]; exact hi, ?_⟩
    rw [hreg.numbers, load_cells_of _ _ i hi, hget, hrino, hino]
  · intro hnone
    refine new_filldir_miss k s0 _ dir cb a hist fuel hreg hpos hint ?_
    rintro pDentry hl ⟨i, hi, hload⟩
    have hi2 : i < (saved cs h0).length := by rw [← hreg.count]; exact hi
    rw [hreg.numbers, load_cells_of _ _ i hi2] at hload
    obtain ⟨c, hc, nd, hres, _, hino⟩ :=
      saved_mem cs h0 _ (List.get_mem (saved cs h0) i hi2)
    have heq : ((saved cs h0).get ⟨i, hi2⟩).ino = (s0.inodes (k.d_inode pDentry)).i_ino := by
      injection hload
    exact hnone pDentry hl c hc nd hres (by rw [← heq, hino])

/-- C6, instance: `/srv` is hooked by the registration of `/srv/u`; its entry
`link`, a second link to the inode of the target registered as `/tmp/t`, is
withheld. -/
theorem new_filldir_withholds_any_parent_witness :
    (hidden_two.inodes (twodirs.d_inode 2)).i_fop = .new_parent_fop ∧
    twodirs.d_inode (twodirs.d_parent 4) ≠ twodirs.d_inode 2 ∧
    new_filldir twodirs
      (fun f b h => call_filldir twodirs 1 f b (hidden_two.enumerating 2 accept_all) h)
      ⟨0, "link", 4, 2, 7003, 8⟩ (hidden_two.enumerating 2 accept_all) [] = .ok (0, []) :=
  ⟨by decide, by decide,
    (new_filldir_withholds_any_parent [⟨twodirs, "/tmp/t"⟩, ⟨twodirs, "/srv/u"⟩] heap0
      hidden_two twodirs 2 accept_all ⟨0, "link", 4, 2, 7003, 8⟩ [] 0 rfl
      (fun p => by simp [heap0]) (by decide) (by decide)).1 ⟨twodirs, "/tmp/t"⟩ 4 6
      (List.mem_cons_self _ _) (by decide) (by decide) (by decide)⟩

/-! ### The parent's table -/

/-- C8, as stated, fails: before `/root/secret.txt` is registered, the `llseek`
and `open` slots of the table of `/root` hold kernel functions; afterwards they
are NULL. -/
theorem parent_loses_other_operations :
    run [⟨rootfs, "/root/secret.txt"⟩] (State.init heap0) = .ok hidden_secret ∧
    deref_fop rootfs (heap0 100).i_fop .llseek = some (.kernel 901) ∧
    deref_fop rootfs (heap0 100).i_fop .open = some (.kernel 902) ∧
    deref_fop rootfs (hidden_secret.inodes 100).i_fop .llseek = none ∧
    deref_fop rootfs (hidden_secret.inodes 100).i_fop .open = none :=
  ⟨rfl, by decide, by decide, by decide, by decide⟩

/-- C8, amended: a successful registration of a target that is not its own
parent replaces the whole `i_fop` table of the parent directory by
`new_parent_fop`: afterwards the parent's `readdir` is `parent_readdir`, every
other file operation of the parent is NULL whatever it was before, and the
parent's `i_op` table and inode number are unchanged. -/
theorem hook_replaces_parent_table (cs : List Call) (h0 : Nat → inode) (s : State)
    (c : Call) (nd : Nat)
    (hrun : run cs (State.init h0) = .ok s) (hres : c.resolve = some nd)
    (hne : c.target nd ≠ c.parent nd) :
    ∃ s1, hook_functions c.k c.path s = .ok (0, s1) ∧
      (s1.inodes (c.parent nd)).i_fop = .new_parent_fop ∧
      (∀ k : Kernel, deref_fop k (s1.inodes (c.parent nd)).i_fop .readdir
        = some .parent_readdir) ∧
      (∀ (k : Kernel) (slot : FileSlot), slot ≠ .readdir →
        deref_fop k (s1.inodes (c.parent nd)).i_fop slot = none) ∧
      (s1.inodes (c.parent nd)).i_op = (s.inodes (c.parent nd)).i_op ∧
      (s1.inodes (c.parent nd)).i_ino = (s.inodes (c.parent nd)).i_ino := by
  obtain ⟨s2, hrun2, _, hs⟩ := run_init cs h0
  rw [hrun] at hrun2
  injection hrun2 with hss
  subst hss
  obtain ⟨s1, hhook, _, hin1, _⟩ := hook_functions_resolved c s (saved cs h0) nd hres hs
  have hne2 : ¬ c.parent nd = c.target nd := fun e => hne e.symm
  have hfop : (s1.inodes (c.parent nd)).i_fop = .new_parent_fop := by
    rw [hin1]
    simp [install, set_i_fop, set_i_op, hne2]
  refine ⟨s1, hhook, hfop, ?_, ?_, ?_, ?_⟩
  · intro k
    rw [hfop]
    rfl
  · intro k slot hslot
    rw [hfop]
    cases slot <;> first | rfl | exact absurd rfl hslot
  · rw [hin1]
    simp [install, set_i_fop, set_i_op, hne2]
  · rw [hin1, install_ino]

/-- C8, instance: registering `/root/secret.txt` on a freshly loaded module. -/
theorem hook_replaces_parent_table_witness :
    ∃ s1, hook_functions rootfs "/root/secret.txt" (State.init heap0) = .ok (0, s1) ∧
      (s1.inodes 100).i_fop = .new_parent_fop :=
  (hook_replaces_parent_table [] heap0 (State.init heap0) ⟨rootfs, "/root/secret.txt"⟩ 2 rfl
    (by decide) (by decide)).imp fun _ h => ⟨h.1, h.2.1⟩


/-! ### The control channel -/

theorem to_ssize_small (n : Nat) (h : n < 2 ^ 63) : to_ssize n = (n : Int) := by
  have h1 : n % 2 ^ 64 = n := Nat.mod_eq_of_lt (by omega)
  unfold to_ssize
  rw [h1, if_pos h]

theorem to_ssize_minus_one : to_ssize (2 ^ 64 - 1) = -1 := by decide

theorem to_ssize_minus_two : to_ssize (2 ^ 64 - 2) = -2 := by decide

/-- C9, as stated, fails: a write of the 13 bytes `/root/missing`, a path that
`path_lookup` cannot resolve, returns `-2`, not `-1`. -/
theorem unresolved_path_returns_minus_two :
    rootfs.path_lookup "/root/missing" = none ∧
    path_of_buffer missing_buffer 13 = .ok "/root/missing" ∧
    returned (dev_write rootfs (some missing_buffer) 13 (State.init heap0)) = .ok (-2) := by
  refine ⟨by decide, by decide, by decide⟩

/-- C9, amended: for a write of length `n < 2^63`, `dev_write` returns `n` when
`hook_functions` returns 0; it returns `-2` whenever `hook_functions` returns
`(unsigned long)-1`, which is the case when the root or the target path cannot
be resolved and when `g_inode_numbers` is NULL; it returns `-1` only when
copying the path from user space faults. -/
theorem dev_write_result (k : Kernel) (buffer : List Char) (length : Nat) (s : State)
    (path : String) (hpath : path_of_buffer buffer length = .ok path)
    (hlen : length < 2 ^ 63) :
    returned (dev_write k none length s) = .ok (-1) ∧
    (∀ s1, hook_functions k path s = .ok (0, s1) →
      dev_write k (some buffer) length s = .ok ((length : Int), s1)) ∧
    (∀ s1, hook_functions k path s = .ok (ULONG_MINUS_ONE, s1) →
      dev_write k (some buffer) length s = .ok (-2, s1)) ∧
    ((k.path_lookup "/root" = none ∨ k.path_lookup path = none) →
      returned (dev_write k (some buffer) length s) = .ok (-2)) ∧
    (s.g_inode_count ≠ 0 → s.g_inode_numbers = .null →
      returned (dev_write k (some buffer) length s) = .ok (-2)) := by
  have hminus : ∀ s1, hook_functions k path s = .ok (ULONG_MINUS_ONE, s1) →
      dev_write k (some buffer) length s = .ok (-2, s1) := by
    intro s1 h
    simp only [dev_write, hpath, h, if_true, to_ssize_minus_two]
  refine ⟨?_, ?_, hminus, ?_, ?_⟩
  · simp only [dev_write, returned, to_ssize_minus_one]
  · intro s1 h
    have hne : ¬ (0 : Nat) = ULONG_MINUS_ONE := by decide
    simp only [dev_write, hpath, h, hne, if_false, to_ssize_small length hlen]
  · intro hfail
    obtain ⟨s1, h, _⟩ := hook_functions_unresolved ⟨k, path⟩ s (by
      unfold Call.resolve
      rcases hfail with h | h
      · simp only [h]
      · cases hroot : k.path_lookup "/root" with
        | none => rfl
        | some root => simpa only using h)
    rw [hminus s1 h]
    rfl
  · intro hcount hnull
    cases hroot : k.path_lookup "/root" with
    | none =>
      have h : hook_functions k path s = .ok (ULONG_MINUS_ONE, s) := by
        simp only [hook_functions, hroot]
      rw [hminus s h]
      rfl
    | some root =>
      cases htarget : k.path_lookup path with
      | none =>
        have h : hook_functions k path s
            = .ok (ULONG_MINUS_ONE, { s with g_root_nd := some root }) := by
          simp only [hook_functions, hroot, htarget]
        rw [hminus _ h]
        rfl
      | some nd =>
        have h : hook_functions k path s
            = .ok (ULONG_MINUS_ONE, { s with g_root_nd := some root }) := by
          simp only [hook_functions, hroot, htarget, hcount, if_false, hnull]
        rw [hminus _ h]
        rfl

/-- C9, instance: a write of the 16 bytes `/root/secret.txt` to a freshly loaded
module. -/
theorem dev_write_result_witness :
    returned (dev_write rootfs none 16 (State.init heap0)) = .ok (-1) ∧
    returned (dev_write rootfs (some secret_buffer) 16 (State.init heap0)) = .ok 16 :=
  have h := dev_write_result rootfs secret_buffer 16 (State.init heap0) "/root/secret.txt"
    (by decide) (by decide)
  ⟨h.1, by rw [h.2.1 hidden_secret rfl]; rfl⟩

/-! ### Enumerating `/root` -/

theorem parent_readdir_loops (k : Kernel) (root : Nat) :
    ∀ (fuel : Nat) (fl : file) (dirent : Nat) (f : filldir_t) (s : State)
      (hist : List filldir_args),
      s.g_root_nd = some root → (s.inodes (k.d_inode root)).i_fop = .new_parent_fop →
      call_readdir k fuel .parent_readdir fl dirent f s hist = .error .diverges := by
  intro fuel
  induction fuel with
  | zero => intro fl dirent f s hist _ _; rfl
  | succ n ih =>
    intro fl dirent f s hist hroot hfop
    simp only [call_readdir, hroot, hfop, deref_fop, new_parent_fop]
    exact ih fl dirent .new_filldir _ hist rfl hfop

/-- C2, at its own scenario: after `/root/secret.txt` has been registered, an
enumeration of `/root` does not complete, whatever the call depth allowed:
`parent_readdir` calls the `readdir` of the table now installed on the inode of
`/root`, which is `parent_readdir` itself.  After `backup_functions` the
enumeration completes and hands `secret.txt` to the caller again. -/
theorem enumeration_of_root_never_returns :
    run [⟨rootfs, "/root/secret.txt"⟩] (State.init heap0) = .ok hidden_secret ∧
    hidden_secret.g_root_nd = some 1 ∧
    (hidden_secret.inodes (rootfs.d_inode 1)).i_fop = .new_parent_fop ∧
    (∀ fuel, seen (vfs_readdir rootfs fuel 1 0 accept_all hidden_secret) = .error .diverges) ∧
    (∃ s1, backup_functions hidden_secret = .ok s1 ∧
      seen (vfs_readdir rootfs 3 1 0 accept_all s1) = .ok (0, ["secret.txt", "notes.txt"])) := by
  refine ⟨rfl, by decide, by decide, ?_, ⟨_, rfl, by decide⟩⟩
  intro fuel
  have hfop : (hidden_secret.inodes (rootfs.d_inode 1)).i_fop = .new_parent_fop := by decide
  have h := parent_readdir_loops rootfs 1 fuel ⟨1⟩ 0 (.caller accept_all) hidden_secret []
    (by decide) hfop
  simp only [vfs_readdir, hfop, deref_fop, new_parent_fop, h, seen]

/-! ### The stub tables -/

/-- C7, checked on the tables: `new_fop` has handlers for `read`, `write`,
`open` and `release` (and for `readdir` and `mmap`), `new_iop` has handlers for
`getattr` and `rmdir`, and each stub returns `-2` for all arguments; but the
`flush` slot of `new_fop` is NULL: `new_flush` is defined and never installed. -/
theorem new_fop_has_no_flush :
    new_fop .flush = none ∧
    (∀ args, stub_result .new_flush args = some (-2)) ∧
    new_fop .read = some .new_read ∧ new_fop .write = some .new_write ∧
    new_fop .open = some .new_open ∧ new_fop .release = some .new_release ∧
    new_fop .readdir = some .new_readdir ∧ new_fop .mmap = some .new_mmap ∧
    new_iop .getattr = some .new_getattr ∧ new_iop .rmdir = some .new_rmdir ∧
    (∀ f args, stub_result f args = none ∨ stub_result f args = some (-2)) := by
  refine ⟨rfl, fun _ => rfl, rfl, rfl, rfl, rfl, rfl, rfl, rfl, rfl, ?_⟩
  intro f args
  cases f <;> first | exact Or.inl rfl | exact Or.inr rfl

end Hidefile
